import Mathlib

/-!
Verification of the video-translator subtitle pipeline.

This file gives a shallow embedding, in Lean 4, of the pure core of the
TypeScript sources of the repository (subtitleTranslator.ts,
subtitleComposer.ts, videoComposer.ts, database.ts) and proves the
behavioural claims stated about them.

Modelling conventions:
  * JavaScript numbers are modelled by integers where the program only ever
    holds integer values (pixel coordinates and sizes coming from the OCR
    collaborator, font sizes, frame numbers) and by rationals where the
    program divides or multiplies by fractional constants.  All the
    arithmetic the embedded code performs on these values is exact in both
    models.
  * Strings are Lean strings; character-level processing is done on
    `String.data` (the list of characters).  JavaScript string predicates
    (the whitespace class of the regexes that the sources use) are embedded
    explicitly below.
  * Stateful code (the in-memory job store) is embedded by explicit state
    passing over an association list.
-/
/-! ## JavaScript string primitives used by the sources -/
/-- Whitespace class of the JavaScript regular expression `\s`
(space, tab, line feed, vertical tab, form feed, carriage return,
no-break space, ogham space mark, the U+2000 block, line and paragraph
separators, narrow no-break space, medium mathematical space, ideographic
space and the byte-order mark). -/
def isJsWs (c : Char) : Bool :=
  c = ' ' || c = '\t' || c = '\n' || c = '\x0b' || c = '\x0c' || c = '\r' ||
  c = ' ' || c = ' ' ||
  (0x2000 ≤ c.toNat && c.toNat ≤ 0x200a) ||
  c = ' ' || c = ' ' || c = ' ' || c = ' ' ||
  c = '　' || c = '﻿'

/-- JavaScript `String.prototype.trim` (strips `\s` from both ends). -/
def jsTrim (s : String) : String :=
  String.mk (((s.data.dropWhile isJsWs).reverse.dropWhile isJsWs).reverse)

/-- Helper for JavaScript `s.split(/\s+/)`: split on maximal whitespace
runs, keeping the boundary empty pieces that JavaScript produces for
leading or trailing separators.  The state is `some cur` while a token
`cur` (reversed) is being collected and `none` while inside a whitespace
run. -/
def splitWsAux (state : Option (List Char)) : List Char → List (List Char)
  | [] =>
    match state with
    | some cur => [cur.reverse]
    | none => [[]]
  | c :: rest =>
    match state with
    | some cur =>
      if isJsWs c then cur.reverse :: splitWsAux none rest
      else splitWsAux (some (c :: cur)) rest
    | none =>
      if isJsWs c then splitWsAux none rest
      else splitWsAux (some [c]) rest

/-- JavaScript `s.split(/\s+/)`. -/
def jsSplitWs (s : String) : List String :=
  (splitWsAux (some []) s.data).map String.mk

/-- Word count used by the subtitle filter:
`(t.text || '').trim().split(/\s+/).filter(Boolean).length`. -/
def wordCount (s : String) : ℕ :=
  ((jsSplitWs (jsTrim s)).filter (fun w => w ≠ "")).length

/-- Character count used by the subtitle filter:
`(t.text || '').replace(/\s+/g, '').length`. -/
def charCountNoWs (s : String) : ℕ :=
  (s.data.filter (fun c => !isJsWs c)).length

/-- JavaScript `||` on strings: the empty string is falsy. -/
def jsOr (a b : String) : String := if a = "" then b else a

/-- JavaScript `s.slice(a, b)` for `0 ≤ a ≤ b` (clamped at the end of the
string, as in JavaScript). -/
def jsSlice (s : String) (a b : ℕ) : String :=
  String.mk ((s.data.drop a).take (b - a))

/-! ## subtitleComposer.ts : hexToAss (claim C8) -/

/-- Character class `[0-9a-fA-F]` of the colour regular expression. -/
def isHexDigit (c : Char) : Bool :=
  ('0' ≤ c && c ≤ '9') || ('a' ≤ c && c ≤ 'f') || ('A' ≤ c && c ≤ 'F')

/-- JavaScript `s.replace(/^#/, '')`: removes one leading hash sign. -/
def stripHash (s : String) : String :=
  match s.data with
  | '#' :: r => String.mk r
  | _ => s

/-- Test of the regular expression `^([0-9a-fA-F]{6}|[0-9a-fA-F]{8})$`. -/
def validHex (s : String) : Bool :=
  (s.length = 6 || s.length = 8) && s.data.all isHexDigit

/-- Embedding of `hexToAss` from subtitleComposer.ts.  Both arguments are
strings, with the empty string standing for an absent (undefined)
argument, which `||` treats identically. -/
def hexToAss (hex dflt : String) : String :=
  let h1 := jsTrim (stripHash (jsOr hex (jsOr dflt "")))
  let h := if validHex h1 then h1 else stripHash (jsOr dflt "000000")
  if h.length = 6 then
    "&H00" ++ jsSlice h 4 6 ++ jsSlice h 2 4 ++ jsSlice h 0 2
  else
    "&H" ++ jsSlice h 6 8 ++ jsSlice h 4 6 ++ jsSlice h 2 4 ++ jsSlice h 0 2

/-- Normalised form of a colour argument before validation. -/
def normHex (s : String) : String := jsTrim (stripHash s)

/-! ## Stable sorting (JavaScript `Array.prototype.sort` is stable) -/

/-- Insert `x` into a sorted list: `x` goes in front of the first element
`y` that is not strictly below it (`lt y x = false`), so equal elements
keep their original relative order, as JavaScript sort guarantees. -/
def insBy {α : Type} (lt : α → α → Bool) (x : α) : List α → List α
  | [] => [x]
  | y :: ys => if lt y x then y :: insBy lt x ys else x :: y :: ys

/-- Stable insertion sort with strict comparison `lt` (the embedding of a
JavaScript comparator `cmp a b < 0`). -/
def sortL {α : Type} (lt : α → α → Bool) : List α → List α
  | [] => []
  | x :: xs => insBy lt x (sortL lt xs)

/-! ## subtitleComposer.ts : mergeFrameTexts (claims C2, C7) -/

/-- Per-frame text after the layout decision, as fed to the run-length
merge. -/
structure FrameText where
  frameNumber : ℕ
  text : String
deriving DecidableEq, Repr

/-- Subtitle event produced by the run-length merge: text with start and
end time in seconds. -/
structure SubEvent where
  text : String
  startTime : ℚ
  endTime : ℚ
deriving DecidableEq, Repr

/-- Loop body of `mergeFrameTexts`, with the currently open event made
explicit. -/
def mergeAux (fps : ℚ) (cur : SubEvent) : List FrameText → List SubEvent
  | [] => [cur]
  | f :: rest =>
    let startSec : ℚ := ((f.frameNumber : ℚ) - 1) / fps
    let endSec : ℚ := (f.frameNumber : ℚ) / fps
    if f.text = cur.text then
      mergeAux fps { cur with endTime := endSec } rest
    else
      cur :: mergeAux fps ⟨f.text, startSec, endSec⟩ rest

/-- Embedding of `mergeFrameTexts` from subtitleComposer.ts: walk the
per-frame sequence; while the text equals the open event, extend its end
to the current frame end; on any change push the open event and open a
new one. -/
def mergeFrameTexts (frames : List FrameText) (fps : ℚ) : List SubEvent :=
  match frames with
  | [] => []
  | f :: rest =>
      mergeAux fps ⟨f.text, ((f.frameNumber : ℚ) - 1) / fps,
        (f.frameNumber : ℚ) / fps⟩ rest

/-! ## subtitleComposer.ts : layout decision and event assembly -/

/-- Character class of `isCJK` in subtitleComposer.ts:
`[぀-ヿ㐀-鿿豈-﫿]`. -/
def isCJKComposerChar (c : Char) : Bool :=
  (0x3040 ≤ c.toNat && c.toNat ≤ 0x30ff) ||
  (0x3400 ≤ c.toNat && c.toNat ≤ 0x9fff) ||
  (0xf900 ≤ c.toNat && c.toNat ≤ 0xfaff)

/-- Test of the `isCJK` regular expression on a whole string. -/
def hasCJKComposer (s : String) : Bool := s.data.any isCJKComposerChar

/-- Style options of `overlaySubtitlesBottomCenter` after merging request
options over the environment defaults. -/
structure ComposerOpts where
  baseFontSize : ℤ
  boxPad : ℤ
  marginV : ℤ
  forceOneLine : Bool
  cjkFactor : ℚ
  latinFactor : ℚ
deriving DecidableEq, Repr

/-- Environment defaults of subtitleComposer.ts: base font size 44, box
padding 10, bottom margin 90, no forced single line, CJK width factor 0.9,
Latin width factor 0.62. -/
def defaultComposerOpts : ComposerOpts :=
  ⟨44, 10, 90, false, 9 / 10, 62 / 100⟩

/-- Per-frame merged text:
`(frame.texts || []).map(t => (t?.translatedText || '').trim()).filter(Boolean).join(' ')`. -/
structure TText where
  translatedText : String
deriving DecidableEq, Repr

/-- Frame carrying translated texts, the composer input. -/
structure TFrame where
  frameNumber : ℕ
  texts : List TText
deriving DecidableEq, Repr

def frameMergedText (fr : TFrame) : String :=
  String.intercalate " "
    ((fr.texts.map (fun t => jsTrim t.translatedText)).filter
      (fun s => s ≠ ""))

/-- Layout decision of the composer: if the estimated one-line width
`s.length * factor * baseFontSize` exceeds `floor(vW * 0.9) - boxPad * 2`
and a single line is not forced, split into two halves, by character for
CJK text and by whitespace tokens for Latin text.  The font size is never
changed here. -/
def decidedText (opts : ComposerOpts) (vW : ℤ) (s : String) : String :=
  if s = "" then ""
  else
    let cjk := hasCJKComposer s
    let factor : ℚ := if cjk then opts.cjkFactor else opts.latinFactor
    let maxWidth : ℤ := ⌊(vW : ℚ) * (9 / 10)⌋ - opts.boxPad * 2
    let est : ℚ := (s.length : ℚ) * factor * (opts.baseFontSize : ℚ)
    if opts.forceOneLine = false ∧ (maxWidth : ℚ) < est then
      if cjk then
        let half := (s.data.length + 1) / 2
        String.mk (s.data.take half) ++ "\n" ++ String.mk (s.data.drop half)
      else
        let words := jsSplitWs s
        let half := (words.length + 1) / 2
        String.intercalate " " (words.take half) ++ "\n" ++
          String.intercalate " " (words.drop half)
    else s

/-- ASS escaping of the event text (`escAss`): braces become parentheses
and a line feed becomes the two characters of an ASS line break. -/
def escAss (s : String) : String :=
  String.mk ((s.data.map (fun c =>
    if c = '\x7b' then ['(']
    else if c = '\x7d' then [')']
    else if c = '\n' then ['\\', 'N']
    else [c])).flatten)

/-- One emitted dialogue event: escaped text, start and end seconds, and
the font size written in the `\fs` override of the dialogue line (the
source interpolates `baseFontSize` there in both style branches). -/
structure AssEvent where
  text : String
  startTime : ℚ
  endTime : ℚ
  fontSize : ℤ
deriving DecidableEq, Repr

/-- Pure core of `overlaySubtitlesBottomCenter`: per-frame merged text,
layout decision, run-length merge at 1 fps, and the event loop that skips
empty texts and emits one dialogue per remaining event. -/
def buildAssEvents (opts : ComposerOpts) (vW : ℤ) (frames : List TFrame) :
    List AssEvent :=
  let perFrame : List FrameText :=
    frames.map (fun fr => ⟨fr.frameNumber, frameMergedText fr⟩)
  let decided : List FrameText :=
    perFrame.map (fun pf => ⟨pf.frameNumber, decidedText opts vW pf.text⟩)
  let merged := mergeFrameTexts decided 1
  (merged.filter (fun ev => ev.text ≠ "")).map
    (fun ev => ⟨escAss ev.text, ev.startTime, ev.endTime, opts.baseFontSize⟩)

/-! ## videoComposer.ts : wrapTextForBox and layoutForText (claim C5) -/

/-- JavaScript `s.split('\n')` (single-character separator). -/
def splitNlAux : List Char → List Char → List (List Char)
  | cur, [] => [cur.reverse]
  | cur, c :: rest =>
    if c = '\n' then cur.reverse :: splitNlAux [] rest
    else splitNlAux (c :: cur) rest

def splitNl (s : String) : List String :=
  (splitNlAux [] s.data).map String.mk

/-- Input of the drawtext layout engine: translated text with the source
bounding box and estimated font size. -/
structure LayoutBox where
  translatedText : String
  width : ℤ
  height : ℤ
  fontSize : ℤ
deriving DecidableEq, Repr

/-- Result of `layoutForText`. -/
structure LayoutResult where
  wrapped : String
  lines : List String
  fitted : ℤ
  isC : Bool
deriving DecidableEq, Repr

/-- Embedding of `wrapTextForBox` from videoComposer.ts: greedy wrap at
`max(1, floor(width / (fontSize * factor)))` characters per line, token
by token (characters for CJK, whitespace-split words for Latin). -/
def wrapTextForBox (cjkF latinF : ℚ) (text : String) (width fontSize : ℤ) :
    String :=
  if text = "" then text
  else
    let cjk := hasCJKComposer text
    let factor : ℚ := if cjk then cjkF else latinF
    let maxPerLine : ℤ := max 1 ⌊(width : ℚ) / ((fontSize : ℚ) * factor)⌋
    if (text.length : ℤ) ≤ maxPerLine then text
    else
      let toks := if cjk then text.data.map (fun c => String.mk [c])
        else jsSplitWs text
      let step := fun (acc : List String × String) (token : String) =>
        let next := if acc.2 = "" then token
          else if cjk then acc.2 ++ token else acc.2 ++ " " ++ token
        if maxPerLine < (next.length : ℤ) ∧ acc.2 ≠ "" then
          (acc.1 ++ [acc.2], token)
        else (acc.1, next)
      let fin := toks.foldl step ([], "")
      let allLines := if fin.2 ≠ "" then fin.1 ++ [fin.2] else fin.1
      String.intercalate "\n" allLines

/-- Embedding of `layoutForText` from videoComposer.ts: wrap at the box
font size; if the estimated width of the longest wrapped line exceeds the
available width, shrink the font to
`max(12, floor(maxWidth / (longest * factor)))` and re-wrap at the new
size. -/
def layoutForText (boxPadding : ℤ) (cjkF latinF : ℚ) (t : LayoutBox) :
    LayoutResult :=
  let original := t.translatedText
  let isC := hasCJKComposer original
  let factor : ℚ := if isC then cjkF else latinF
  let maxWidth : ℤ := max 10 (t.width - boxPadding * 2)
  let wrapped := wrapTextForBox cjkF latinF original t.width t.fontSize
  let lines := if wrapped = "" then [""] else splitNl wrapped
  let longest : ℤ := (lines.map (fun l => (l.length : ℤ))).foldr max 1
  let est : ℚ := (longest : ℚ) * factor * (t.fontSize : ℚ)
  if (maxWidth : ℚ) < est then
    let fitted : ℤ := max 12 ⌊(maxWidth : ℚ) / ((longest : ℚ) * factor)⌋
    let wrapped2 := wrapTextForBox cjkF latinF original t.width fitted
    let lines2 := if wrapped2 = "" then [""] else splitNl wrapped2
    ⟨wrapped2, lines2, fitted, isC⟩
  else
    ⟨wrapped, lines, t.fontSize, isC⟩

/-- Modelled from the claim wording only (for comparison with the code):
the fitted font size the claim says the engine emits, namely the
available width divided by the longest line length times the script width
factor, bounded below by a floor. -/
def specClaimFittedFontSize (availableWidth longest : ℤ) (factor : ℚ)
    (floorSize : ℤ) : ℤ :=
  max floorSize ⌊(availableWidth : ℚ) / ((longest : ℚ) * factor)⌋

/-! ## Job store (database.ts) and job state machine (claims C3, C9) -/

/-- Job lifecycle states, the `JobStatus` union of jobManager.ts:
queued | processing | completed | failed. -/
inductive JobStatus
  | queued
  | processing
  | completed
  | failed
deriving DecidableEq, Repr

/-- Completed and failed are the terminal states. -/
def JobStatus.isTerminal : JobStatus → Bool
  | .completed => true
  | .failed => true
  | _ => false

/-- Job record with the fields stored by every database provider of
database.ts (`stats` kept as an opaque string payload). -/
structure Job where
  id : String
  status : JobStatus
  targetLanguage : String
  videoPath : Option String
  outputPath : Option String
  previewPath : Option String
  progress : ℕ
  errorMsg : Option String
  stats : Option String
  createdAt : ℕ
  updatedAt : ℕ
deriving DecidableEq, Repr

/-- A `Partial<Job>` update: absent fields are `none`. -/
structure JobPatch where
  status : Option JobStatus
  videoPath : Option String
  outputPath : Option String
  previewPath : Option String
  progress : Option ℕ
  errorMsg : Option String
  stats : Option String
  updatedAt : Option ℕ
deriving DecidableEq, Repr

/-- The empty partial update. -/
def emptyPatch : JobPatch := ⟨none, none, none, none, none, none, none, none⟩

/-- JavaScript `Object.assign(job, updates)`: replace exactly the fields
present in the partial update, leaving all others (including
`updatedAt`) untouched. -/
def applyPatch (p : JobPatch) (j : Job) : Job :=
  { j with
      status := p.status.getD j.status
      videoPath := (p.videoPath.map some).getD j.videoPath
      outputPath := (p.outputPath.map some).getD j.outputPath
      previewPath := (p.previewPath.map some).getD j.previewPath
      progress := p.progress.getD j.progress
      errorMsg := (p.errorMsg.map some).getD j.errorMsg
      stats := (p.stats.map some).getD j.stats
      updatedAt := p.updatedAt.getD j.updatedAt }

/-- Lookup in the job map (`this.jobs.get(id)`). -/
def getJob (st : List (String × Job)) (id : String) : Option Job :=
  (st.find? (fun e => e.1 = id)).map (fun e => e.2)

/-- Apply a function to the entry of `id`, leaving the store unchanged
when the id is unknown. -/
def updateEntry (id : String) (f : Job → Job) (st : List (String × Job)) :
    List (String × Job) :=
  st.map (fun e => if e.1 = id then (e.1, f e.2) else e)

/-- Embedding of `MemoryDatabase.updateJob` of database.ts: fetch the job,
`Object.assign(job, updates)` and store it back; no other field is
touched, in particular `updatedAt` is NOT refreshed. -/
def memUpdateJob (st : List (String × Job)) (id : String) (p : JobPatch) :
    List (String × Job) :=
  updateEntry id (applyPatch p) st

/-- Embedding of `PostgresDatabase.updateJob` and `SQLiteDatabase.updateJob`
of database.ts: `Object.assign(job, updates, { updatedAt: Date.now() })`,
which merges the partial update and then always refreshes `updatedAt`. -/
def sqlStyleUpdateJob (now : ℕ) (st : List (String × Job)) (id : String)
    (p : JobPatch) : List (String × Job) :=
  updateEntry id (fun j => { applyPatch p j with updatedAt := now }) st

/-- Embedding of `JobManager.updateJob` of jobManager.ts: when the id is
present, `Object.assign(job, updates, { updatedAt: Date.now() })` — the
patch is merged unconditionally (the status included, with no
terminal-state guard anywhere) and `updatedAt` is refreshed; an unknown
id is a no-op. -/
def jmUpdateJob (now : ℕ) (st : List (String × Job)) (id : String)
    (p : JobPatch) : List (String × Job) :=
  updateEntry id (fun j => { applyPatch p j with updatedAt := now }) st

/-- Embedding of `JobManager.setJobProcessing`:
`updateJob(id, { status: 'processing', progress: 10 })`, applied
unconditionally to whatever status the job currently has. -/
def setJobProcessing (now : ℕ) (st : List (String × Job)) (id : String) :
    List (String × Job) :=
  updateEntry id (fun j =>
    { j with
        status := .processing
        progress := 10
        updatedAt := now }) st

/-- Embedding of `JobManager.setJobCompleted(id, outputPath, previewPath?,
stats?)`: `updateJob` with `{ status: 'completed', progress: 100,
outputPath, previewPath, stats }`.  All five keys are present in the
object literal, so `Object.assign` also overwrites `previewPath` and
`stats` with `undefined` (`none`) when the optional arguments are
omitted; there is no terminal-state guard. -/
def setJobCompleted (now : ℕ) (st : List (String × Job)) (id : String)
    (out : String) (preview stats : Option String) :
    List (String × Job) :=
  updateEntry id (fun j =>
    { j with
        status := .completed
        progress := 100
        outputPath := some out
        previewPath := preview
        stats := stats
        updatedAt := now }) st

/-- Embedding of `JobManager.setJobFailed(id, error)`: `updateJob` with
`{ status: 'failed', progress: 0, error }`, applied unconditionally. -/
def setJobFailed (now : ℕ) (st : List (String × Job)) (id : String)
    (msg : String) : List (String × Job) :=
  updateEntry id (fun j =>
    { j with
        status := .failed
        progress := 0
        errorMsg := some msg
        updatedAt := now }) st

/-! ## subtitleTranslator.ts : normalizeCJKSpacing (claim C10) -/

/-- Character class `[㐀-鿿豈-﫿]` of the normalisation regular
expression in subtitleTranslator.ts (narrower than the composer class:
no kana). -/
def isCJKNormChar (c : Char) : Bool :=
  (0x3400 ≤ c.toNat && c.toNat ≤ 0x9fff) ||
  (0xf900 ≤ c.toNat && c.toNat ≤ 0xfaff)

/-- State machine equivalent to the global regex replace
`([CJK])\s+(?=[CJK]) → $1`: after emitting a CJK character the state is
`some ws` with `ws` the (reversed) pending whitespace run; a following
CJK character discards the pending run (the lookahead matched), any other
character flushes it. -/
def normCJKAux (pend : Option (List Char)) : List Char → List Char
  | [] =>
    match pend with
    | some ws => ws.reverse
    | none => []
  | c :: rest =>
    match pend with
    | none =>
      if isCJKNormChar c then c :: normCJKAux (some []) rest
      else c :: normCJKAux none rest
    | some ws =>
      if isJsWs c then normCJKAux (some (c :: ws)) rest
      else if isCJKNormChar c then c :: normCJKAux (some []) rest
      else ws.reverse ++ c :: normCJKAux none rest

/-- Embedding of `normalizeCJKSpacing`: texts without any CJK character
pass through unchanged, otherwise the regex replace removes every
whitespace run standing between two CJK characters. -/
def normalizeCJKSpacing (s : String) : String :=
  if s.data.any isCJKNormChar then String.mk (normCJKAux none s.data)
  else s

/-- Value of `translationMap[t.text] || t.text` (fallback to the original
phrase when the map misses or maps to the empty string). -/
def lookupOrOriginal (tmap : List (String × String)) (s : String) : String :=
  jsOr (((tmap.find? (fun e => e.1 = s)).map (fun e => e.2)).getD "") s

/-- Translation application of step 5 of `translateVideoAss` (and of the
preview path): look the phrase up with fallback, then normalise CJK
spacing unless the `NORMALIZE_CJK_SPACING` environment flag is the string
`"0"`. -/
def applyTranslation (normFlag : String) (tmap : List (String × String))
    (s : String) : String :=
  if normFlag = "0" then lookupOrOriginal tmap s
  else normalizeCJKSpacing (lookupOrOriginal tmap s)

/-- A whitespace run standing between two CJK characters. -/
def hasCJKGap (l : List Char) : Prop :=
  ∃ (pre ws post : List Char) (c₁ c₂ : Char),
    l = pre ++ c₁ :: (ws ++ c₂ :: post) ∧
    isCJKNormChar c₁ = true ∧ isCJKNormChar c₂ = true ∧ ws ≠ [] ∧
    ∀ w ∈ ws, isJsWs w = true

/-- A leading whitespace run directly followed by a CJK character. -/
def startsWithWsCJK (l : List Char) : Prop :=
  ∃ (ws rest : List Char) (c : Char),
    l = ws ++ c :: rest ∧ ws ≠ [] ∧ (∀ w ∈ ws, isJsWs w = true) ∧
    isCJKNormChar c = true

/-- Head of a character list, tested for the CJK class. -/
def headIsCJK : List Char → Bool
  | [] => false
  | c :: _ => isCJKNormChar c

/-! ## subtitleTranslator.ts : filterSubtitleLike (claims C1, C6) -/

/-- Target vertical region of the filter configuration. -/
inductive Region
  | bottom
  | top
  | middle
  | anyRegion
deriving DecidableEq, Repr

/-- Line-level text with its bounding box, as produced by the Box
Clusterer. -/
structure GText where
  text : String
  x : ℤ
  y : ℤ
  width : ℤ
  height : ℤ
  fontSize : ℤ
deriving DecidableEq, Repr

/-- One sampled frame with its clustered lines. -/
structure GroupedFrame where
  frameNumber : ℕ
  texts : List GText
deriving DecidableEq, Repr

/-- Filter configuration, holding the clamped values the source reads
from the environment. -/
structure FilterCfg where
  region : Region
  regionFrac : ℚ
  minChars : ℕ
  minWords : ℕ
  minAspect : ℚ
  maxLinesPerFrame : ℕ
  requirePersistence : Bool
deriving DecidableEq, Repr

/-- Environment defaults of `filterSubtitleLike`: bottom region of half
the frame, at least 6 characters and 2 words, aspect ratio at least 3, at
most 2 lines per frame, persistence required. -/
def defaultFilterCfg : FilterCfg := ⟨.bottom, 1 / 2, 6, 2, 3, 2, true⟩

/-- Estimated frame height:
`Math.max(1, Math.max(0, ...texts.map(t => t.y + t.height)) + 10)`. -/
def estFrameHeight (fr : GroupedFrame) : ℤ :=
  max 1 ((fr.texts.foldr (fun t m => max (t.y + t.height) m) 0) + 10)

/-- Start of the target vertical band. -/
def regionStart (cfg : FilterCfg) (H : ℤ) : ℚ :=
  match cfg.region with
  | .bottom => (H : ℚ) * (1 - cfg.regionFrac)
  | .top => 0
  | .middle => max 0 ((H : ℚ) / 2 - (H : ℚ) * cfg.regionFrac / 2)
  | .anyRegion => 0

/-- End of the target vertical band. -/
def regionEnd (cfg : FilterCfg) (H : ℤ) : ℚ :=
  match cfg.region with
  | .bottom => (H : ℚ)
  | .top => (H : ℚ) * cfg.regionFrac
  | .middle => min (H : ℚ) ((H : ℚ) / 2 + (H : ℚ) * cfg.regionFrac / 2)
  | .anyRegion => (H : ℚ)

/-- Per-line predicate of the per-frame pass: the vertical midpoint falls
in the band, the stripped character count and word count meet the
minimums, and the width/height ratio (`(t.width || 1) / max(1, t.height)`)
meets the minimum aspect. -/
def passesLine (cfg : FilterCfg) (rs re : ℚ) (t : GText) : Bool :=
  let aspect : ℚ :=
    (((if t.width = 0 then 1 else t.width) : ℤ) : ℚ) /
      ((max 1 t.height : ℤ) : ℚ)
  let midY : ℚ := (t.y : ℚ) + (t.height : ℚ) / 2
  decide (rs ≤ midY) && decide (midY ≤ re) &&
    decide (cfg.minChars ≤ charCountNoWs t.text) &&
    decide (cfg.minWords ≤ wordCount t.text) &&
    decide (cfg.minAspect ≤ aspect)

/-- Comparator `(a, b) => b.width - a.width` (widest first). -/
def widthDescLt (a b : GText) : Bool := decide (b.width < a.width)

/-- Per-frame pass of `filterSubtitleLike`: filter by the line predicate,
sort the survivors widest first and keep the first
`maxLinesPerFrame`. -/
def perFramePass (cfg : FilterCfg) (fr : GroupedFrame) : GroupedFrame :=
  let H := estFrameHeight fr
  ⟨fr.frameNumber,
    (sortL widthDescLt (fr.texts.filter
      (passesLine cfg (regionStart cfg H) (regionEnd cfg H)))).take
      cfg.maxLinesPerFrame⟩

/-- Frame numbers pushed into the occurrence index for a given text: one
entry per occurrence of that (non-empty) text in a frame of the per-frame
output. -/
def occList (prelim : List GroupedFrame) (txt : String) : List ℕ :=
  prelim.flatMap (fun f =>
    (f.texts.filter (fun t => decide (t.text ≠ "") &&
      decide (t.text = txt))).map (fun _ => f.frameNumber))

/-- Adjacent-pair check of the temporal pass:
`sorted[i] === sorted[i-1] + 1` for some `i`. -/
def hasConsecAdj : List ℕ → Bool
  | [] => false
  | [_] => false
  | a :: b :: r => (b == a + 1) || hasConsecAdj (b :: r)

/-- Ascending comparator `(a, b) => a - b` for frame numbers. -/
def natLt (a b : ℕ) : Bool := decide (a < b)

/-- Temporal retention of one text: its sorted occurrence list contains
two adjacent entries one apart. -/
def keepText (prelim : List GroupedFrame) (txt : String) : Bool :=
  hasConsecAdj (sortL natLt (occList prelim txt))

/-- Embedding of `filterSubtitleLike`: per-frame pass on every frame,
then, when persistence is required, keep only the texts retained by the
temporal pass. -/
def filterSubtitleLike (cfg : FilterCfg) (frames : List GroupedFrame) :
    List GroupedFrame :=
  let prelim := frames.map (perFramePass cfg)
  if cfg.requirePersistence = false then prelim
  else prelim.map (fun f =>
    ⟨f.frameNumber, f.texts.filter (fun t => keepText prelim t.text)⟩)

/-- Frame numbers of the frames in which a text survived the per-frame
pass (the claim-level reading of the occurrence index). -/
def survivedFrameNumbers (cfg : FilterCfg) (frames : List GroupedFrame)
    (txt : String) : List ℕ :=
  ((frames.map (perFramePass cfg)).filter (fun f =>
    f.texts.any (fun t => decide (t.text = txt)))).map
    (fun f => f.frameNumber)

/-! ## subtitleTranslator.ts : groupTextsIntoLines (claims C4, C6) -/

/-- Raw OCR word detection; `fontSize` is optional in the source type. -/
structure OCRBox where
  text : String
  x : ℤ
  y : ℤ
  width : ℤ
  height : ℤ
  fontSize : Option ℤ
deriving DecidableEq, Repr

/-- One frame of OCR detections. -/
structure FrameDet where
  frameNumber : ℕ
  texts : List OCRBox
deriving DecidableEq, Repr

/-- Running vertical span of an open cluster. -/
structure Span where
  y : ℤ
  height : ℤ
deriving DecidableEq, Repr

/-- Open cluster: members in join order plus the running span. -/
structure Line where
  items : List OCRBox
  span : Span
deriving DecidableEq, Repr

/-- Comparator `(a, b) => a.y - b.y || a.x - b.x`. -/
def lexYXLt (a b : OCRBox) : Bool :=
  decide (a.y < b.y) || (decide (a.y = b.y) && decide (a.x < b.x))

/-- Vertical overlap test `overlapsY` of the source: intersection height
over `max(1, min(a.height, b.height))`, at least one half. -/
def overlapsY (a : OCRBox) (sp : Span) : Bool :=
  let top := max a.y sp.y
  let bottom := max top (min (a.y + a.height) (sp.y + sp.height))
  let inter := bottom - top
  let minH := max 1 (min a.height sp.height)
  decide ((1 : ℚ) / 2 ≤ (inter : ℚ) / (minH : ℚ))

/-- Push a box onto a cluster and widen the span to the union. -/
def addToLine (l : Line) (t : OCRBox) : Line :=
  let y1 := min l.span.y t.y
  let y2 := max (l.span.y + l.span.height) (t.y + t.height)
  ⟨l.items ++ [t], ⟨y1, y2 - y1⟩⟩

/-- First-fit placement: join the first open cluster whose span overlaps,
otherwise open a new cluster at the end of the list. -/
def placeBox : List Line → OCRBox → List Line
  | [], t => [⟨[t], ⟨t.y, t.height⟩⟩]
  | l :: ls, t =>
    if overlapsY t l.span then addToLine l t :: ls
    else l :: placeBox ls t

/-- Cluster construction of `groupTextsIntoLines`: sort by `(y, x)` and
place every box first-fit. -/
def buildLines (boxes : List OCRBox) : List Line :=
  (sortL lexYXLt boxes).foldl placeBox []

/-- JavaScript `Math.round` (half away from zero on the non-negative
values that occur here). -/
def jsRound (q : ℚ) : ℤ := ⌊q + 1 / 2⌋

/-- Member font size `i.fontSize || Math.round(i.height * 0.8)` (the `||`
also replaces an explicit 0). -/
def boxFontSize (b : OCRBox) : ℤ :=
  match b.fontSize with
  | some v => if v = 0 then jsRound ((b.height : ℚ) * (4 / 5)) else v
  | none => jsRound ((b.height : ℚ) * (4 / 5))

/-- Comparator `(a, b) => a.x - b.x`. -/
def xAscLt (a b : OCRBox) : Bool := decide (a.x < b.x)

/-- Finalisation of one cluster: members sorted left to right, texts
joined with single spaces, union bounding box, and the maximum member
font size (the outer `Math.round` of the source is the identity on these
integer values).  Clusters are never empty, so the `getD 0` defaults of
the spread minima and maxima are never taken. -/
def finalizeLine (l : Line) : GText :=
  let sorted := sortL xAscLt l.items
  let minX := ((sorted.map (fun i => i.x)).min?).getD 0
  let minY := ((sorted.map (fun i => i.y)).min?).getD 0
  let maxX := ((sorted.map (fun i => i.x + i.width)).max?).getD 0
  let maxY := ((sorted.map (fun i => i.y + i.height)).max?).getD 0
  let fontSize := ((sorted.map boxFontSize).max?).getD 0
  ⟨String.intercalate " " (sorted.map (fun i => i.text)),
    minX, minY, maxX - minX, maxY - minY, fontSize⟩

/-- Embedding of `groupTextsIntoLines`. -/
def groupTextsIntoLines (fr : FrameDet) : GroupedFrame :=
  ⟨fr.frameNumber, (buildLines fr.texts).map finalizeLine⟩

/-- Step 5 of `translateVideoAss`: apply the translation map (with
original-text fallback and CJK spacing normalisation) to every retained
line of a frame. -/
def translationStep (normFlag : String) (tmap : List (String × String))
    (fr : GroupedFrame) : TFrame :=
  ⟨fr.frameNumber, fr.texts.map (fun t =>
    ⟨applyTranslation normFlag tmap t.text⟩)⟩

/-- Pure core of the `translateVideoAss` pipeline from OCR detections to
emitted ASS events: cluster words into lines, filter subtitle candidates,
apply translations, and compose the timed events. -/
def pipelineEvents (cfg : FilterCfg) (opts : ComposerOpts) (vW : ℤ)
    (normFlag : String) (tmap : List (String × String))
    (dets : List FrameDet) : List AssEvent :=
  buildAssEvents opts vW
    ((filterSubtitleLike cfg (dets.map groupTextsIntoLines)).map
      (translationStep normFlag tmap))

/-! ## Claim C4 : Box Clusterer grouping -/

/-- Integer intersection height of the vertical extents of two boxes,
clamped at zero, exactly as the clusterer computes it. -/
def specInter (a b : OCRBox) : ℤ :=
  max (max a.y b.y) (min (a.y + a.height) (b.y + b.height)) - max a.y b.y

/-- Claim-side vertical overlap fraction of two boxes: intersection
height divided by the shorter of the two heights, as the claim words it
(no clamping of the denominator). -/
def specOverlapFrac (a b : OCRBox) : ℚ :=
  ((specInter a b : ℤ) : ℚ) / ((min a.height b.height : ℤ) : ℚ)

/-- Integer intersection height of a box with a running span, clamped at
zero, exactly as `overlapsY` computes it. -/
def spanInter (a : OCRBox) (sp : Span) : ℤ :=
  max (max a.y sp.y) (min (a.y + a.height) (sp.y + sp.height)) - max a.y sp.y

/-- Two boxes of a frame joined by an overlap fraction of at least one
half. -/
def boxEdge (boxes : List OCRBox) (a b : OCRBox) : Prop :=
  a ∈ boxes ∧ b ∈ boxes ∧ (1 : ℚ) / 2 ≤ specOverlapFrac a b

/-- Transitive chain of boxes pairwise above the overlap threshold. -/
def chainConn (boxes : List OCRBox) : OCRBox → OCRBox → Prop :=
  Relation.ReflTransGen (boxEdge boxes)

/-- Invariant of one open cluster during the first-fit fold: nonempty,
members drawn from the frame, the span top at or above every member, the
span bottom attained by some member, and members pairwise connected by a
chain of above-threshold overlaps. -/
def InvLine (boxes : List OCRBox) (l : Line) : Prop :=
  l.items ≠ [] ∧
  (∀ b ∈ l.items, b ∈ boxes) ∧
  (∀ b ∈ l.items, l.span.y ≤ b.y) ∧
  (∃ m ∈ l.items, m.y + m.height = l.span.y + l.span.height) ∧
  (∀ p ∈ l.items, ∀ q ∈ l.items, chainConn boxes p q)

/-- Length of a dropWhile is at most the length of the input list. -/
theorem length_dropWhile_le' {α : Type} (p : α → Bool) (l : List α) :
    (l.dropWhile p).length ≤ l.length := by
  induction l with
  | nil => simp [List.dropWhile]
  | cons a l ih =>
    by_cases h : p a = true
    · simp [List.dropWhile, h]; omega
    · simp [List.dropWhile, h]

/-- C8.  Colour resolution: a (possibly hash-prefixed) 6-hex-digit input
resolves to an opaque ASS colour `&H00BBGGRR`; an 8-hex-digit input
resolves to `&HAABBGGRR`, carrying the given alpha byte; an input matching
neither form resolves to the conversion of the documented default
(`FFFFFF` for text, `00000080` for the badge background) and never to an
error (the embedded function is total); in particular `#00000066` parses
to the alpha-carrying background colour `&H66000000`. -/
theorem color_resolution_hexToAss :
    (∀ s d : String, s ≠ "" → validHex (normHex s) = true →
      (normHex s).length = 6 →
      hexToAss s d = "&H00" ++ jsSlice (normHex s) 4 6 ++
        jsSlice (normHex s) 2 4 ++ jsSlice (normHex s) 0 2) ∧
    (∀ s d : String, s ≠ "" → validHex (normHex s) = true →
      (normHex s).length = 8 →
      hexToAss s d = "&H" ++ jsSlice (normHex s) 6 8 ++
        jsSlice (normHex s) 4 6 ++ jsSlice (normHex s) 2 4 ++
        jsSlice (normHex s) 0 2) ∧
    hexToAss "notacolor" "FFFFFF" = "&H00FFFFFF" ∧
    hexToAss "notacolor" "00000080" = "&H80000000" ∧
    (∀ d : String, hexToAss "#00000066" d = "&H66000000") := by
  refine ⟨?_, ?_, by decide, by decide, ?_⟩
  · intro s d hs hv h6
    have hor : jsOr s (jsOr d "") = s := by simp [jsOr, hs]
    simp only [hexToAss, hor]
    rw [show jsTrim (stripHash s) = normHex s from rfl, if_pos hv, if_pos h6]
  · intro s d hs hv h8
    have hor : jsOr s (jsOr d "") = s := by simp [jsOr, hs]
    have h6 : ¬ (normHex s).length = 6 := by omega
    simp only [hexToAss, hor]
    rw [show jsTrim (stripHash s) = normHex s from rfl, if_pos hv, if_neg h6]
  · intro d
    have h1 : normHex "#00000066" = "00000066" := by decide
    simp only [hexToAss, jsOr, if_neg (by decide : ¬ ("#00000066" : String) = "")]
    rw [show jsTrim (stripHash "#00000066") = normHex "#00000066" from rfl, h1,
      if_pos (by decide : validHex "00000066" = true)]
    decide

/-- Witness for C8 at concrete inputs: `#aabbcc` is six hex digits and
resolves to the opaque form, and `#00000066` resolves with alpha `66`. -/
theorem color_resolution_hexToAss_witness :
    hexToAss "#aabbcc" "" = "&H00ccbbaa" ∧
    hexToAss "#00000066" "" = "&H66000000" := by
  constructor
  · have h := color_resolution_hexToAss.1 "#aabbcc" "" (by decide) (by decide)
      (by decide)
    rw [h]; decide
  · exact color_resolution_hexToAss.2.2.2.2 ""

theorem insBy_perm {α : Type} (lt : α → α → Bool) (x : α) (l : List α) :
    (insBy lt x l).Perm (x :: l) := by
  induction l with
  | nil => simp [insBy]
  | cons y ys ih =>
    by_cases h : lt y x = true
    · simp only [insBy, if_pos h]
      exact (ih.cons y).trans (List.Perm.swap x y ys)
    · simp [insBy, h]

theorem sortL_perm {α : Type} (lt : α → α → Bool) (l : List α) :
    (sortL lt l).Perm l := by
  induction l with
  | nil => simp [sortL]
  | cons x xs ih => exact (insBy_perm lt x (sortL lt xs)).trans (ih.cons x)

theorem mem_sortL {α : Type} (lt : α → α → Bool) (l : List α) (a : α) :
    a ∈ sortL lt l ↔ a ∈ l := (sortL_perm lt l).mem_iff

theorem sorted_insBy {α : Type} (lt : α → α → Bool)
    (htr : ∀ a b c, lt b a = false → lt c b = false → lt c a = false)
    (hasym : ∀ a b, lt a b = true → lt b a = false)
    (x : α) (l : List α) (h : l.Pairwise (fun a b => lt b a = false)) :
    (insBy lt x l).Pairwise (fun a b => lt b a = false) := by
  induction l with
  | nil => simp [insBy]
  | cons y ys ih =>
    rcases List.pairwise_cons.mp h with ⟨hy, hys⟩
    by_cases hlt : lt y x = true
    · simp only [insBy, if_pos hlt]
      refine List.pairwise_cons.mpr ⟨?_, ih hys⟩
      intro b hb
      rcases List.mem_cons.mp ((insBy_perm lt x ys).mem_iff.mp hb) with
        hbx | hbys
      · rw [hbx]; exact hasym y x hlt
      · exact hy b hbys
    · have hlt' : lt y x = false := by revert hlt; cases lt y x <;> simp
      simp only [insBy, if_neg hlt]
      refine List.pairwise_cons.mpr ⟨?_, h⟩
      intro b hb
      rcases List.mem_cons.mp hb with hby | hbys
      · rw [hby]; exact hlt'
      · exact htr x y b hlt' (hy b hbys)

theorem sorted_sortL {α : Type} (lt : α → α → Bool)
    (htr : ∀ a b c, lt b a = false → lt c b = false → lt c a = false)
    (hasym : ∀ a b, lt a b = true → lt b a = false)
    (l : List α) :
    (sortL lt l).Pairwise (fun a b => lt b a = false) := by
  induction l with
  | nil => simp [sortL]
  | cons x xs ih => exact sorted_insBy lt htr hasym x (sortL lt xs) ih

/-- C2.  Run-length merge: three consecutive frames with identical
non-empty text merge into exactly one event spanning the covered range;
alternating texts `A,B,A` over three consecutive frames yield three
distinct events whose half-open time ranges do not overlap. -/
theorem timeline_run_length_merge :
    (∀ (n : ℕ) (t : String), t ≠ "" →
      mergeFrameTexts [⟨n, t⟩, ⟨n + 1, t⟩, ⟨n + 2, t⟩] 1 =
        [⟨t, (n : ℚ) - 1, (n : ℚ) + 2⟩]) ∧
    (∀ (n : ℕ) (a b : String), a ≠ b →
      mergeFrameTexts [⟨n, a⟩, ⟨n + 1, b⟩, ⟨n + 2, a⟩] 1 =
        [⟨a, (n : ℚ) - 1, (n : ℚ)⟩, ⟨b, (n : ℚ), (n : ℚ) + 1⟩,
          ⟨a, (n : ℚ) + 1, (n : ℚ) + 2⟩] ∧
      (mergeFrameTexts [⟨n, a⟩, ⟨n + 1, b⟩, ⟨n + 2, a⟩] 1).Pairwise
        (fun e1 e2 => e1 ≠ e2 ∧ e1.endTime ≤ e2.startTime)) := by
  constructor
  · intro n t _
    simp only [mergeFrameTexts, mergeAux, if_pos rfl]
    push_cast
    norm_num
  · intro n a b hab
    have hba : ¬ (b = a) := fun h => hab h.symm
    have hmerge : mergeFrameTexts [⟨n, a⟩, ⟨n + 1, b⟩, ⟨n + 2, a⟩] 1 =
        [⟨a, (n : ℚ) - 1, (n : ℚ)⟩, ⟨b, (n : ℚ), (n : ℚ) + 1⟩,
          ⟨a, (n : ℚ) + 1, (n : ℚ) + 2⟩] := by
      simp only [mergeFrameTexts, mergeAux, if_neg hba, if_neg hab]
      push_cast
      refine List.cons_eq_cons.mpr ⟨by norm_num, ?_⟩
      refine List.cons_eq_cons.mpr ⟨by norm_num, ?_⟩
      refine List.cons_eq_cons.mpr ⟨by norm_num; ring, rfl⟩
    refine ⟨hmerge, ?_⟩
    rw [hmerge]
    refine List.pairwise_cons.mpr ⟨?_, List.pairwise_cons.mpr ⟨?_, ?_⟩⟩
    · intro e he
      rcases List.mem_cons.mp he with h | h
      · subst h
        refine ⟨fun hc => hab (congrArg SubEvent.text hc), by norm_num⟩
      · rcases List.mem_cons.mp h with h2 | h2
        · subst h2
          refine ⟨fun hc => ?_, by norm_num⟩
          have hst := congrArg SubEvent.startTime hc
          simp only at hst
          linarith
        · simp at h2
    · intro e he
      rcases List.mem_cons.mp he with h | h
      · subst h
        refine ⟨fun hc => hba (by simpa using congrArg SubEvent.text hc),
          by norm_num⟩
      · simp at h
    · simp

/-- Witness for C2: the two merge shapes at frame 3 with texts `"A"` and
`"B"`. -/
theorem timeline_run_length_merge_witness :
    mergeFrameTexts [⟨3, "A"⟩, ⟨4, "A"⟩, ⟨5, "A"⟩] 1 =
      [⟨"A", 2, 5⟩] ∧
    mergeFrameTexts [⟨3, "A"⟩, ⟨4, "B"⟩, ⟨5, "A"⟩] 1 =
      [⟨"A", 2, 3⟩, ⟨"B", 3, 4⟩, ⟨"A", 4, 5⟩] := by
  constructor
  · have h := timeline_run_length_merge.1 3 "A" (by decide)
    rw [h]; norm_num
  · have h := (timeline_run_length_merge.2 3 "A" "B" (by decide)).1
    rw [h]; norm_num

/-- Invariant of the run-length merge loop at sampling rate 1: if the open
event ends exactly at the last processed frame boundary and all remaining
frames are later, every produced event is well-formed and the produced
events are chronologically disjoint. -/
theorem mergeAux_invariant (rest : List FrameText) :
    ∀ (cur : SubEvent) (m : ℕ),
      rest.Pairwise (fun f g => f.frameNumber < g.frameNumber) →
      (∀ f ∈ rest, m < f.frameNumber) →
      cur.endTime = (m : ℚ) →
      cur.startTime < cur.endTime →
      (mergeAux 1 cur rest).Pairwise
        (fun e1 e2 => e1.endTime ≤ e2.startTime ∧
          e1.startTime < e2.startTime) ∧
      (∀ e ∈ mergeAux 1 cur rest, e.startTime < e.endTime) ∧
      (∀ e ∈ mergeAux 1 cur rest, cur.startTime ≤ e.startTime) := by
  induction rest with
  | nil =>
    intro cur m _ _ _ hlt
    refine ⟨by simp [mergeAux], ?_, ?_⟩ <;> intro e he <;>
      simp [mergeAux] at he <;> subst he
    · exact hlt
    · exact le_refl _
  | cons f r ih =>
    intro cur m hpw hgt hend hlt
    rcases List.pairwise_cons.mp hpw with ⟨hf, hr⟩
    have hmf : m < f.frameNumber := hgt f (List.mem_cons_self f r)
    by_cases heq : f.text = cur.text
    · simp only [mergeAux, if_pos heq]
      have h1 : ({ cur with endTime := (f.frameNumber : ℚ) / 1 } :
          SubEvent).endTime = ((f.frameNumber : ℕ) : ℚ) := by
        simp
      have h2 : ({ cur with endTime := (f.frameNumber : ℚ) / 1 } :
          SubEvent).startTime < ({ cur with
            endTime := (f.frameNumber : ℚ) / 1 } : SubEvent).endTime := by
        simp only
        have : cur.startTime < (m : ℚ) := hend ▸ hlt
        have hc : (m : ℚ) < (f.frameNumber : ℚ) := by exact_mod_cast hmf
        rw [div_one]
        linarith
      obtain ⟨ha, hb, hc⟩ := ih _ f.frameNumber hr hf h1 h2
      exact ⟨ha, hb, fun e he => hc e he⟩
    · simp only [mergeAux, if_neg heq]
      have hstart : ((f.frameNumber : ℚ) - 1) / 1 <
          (f.frameNumber : ℚ) / 1 := by
        rw [div_one, div_one]; linarith
      obtain ⟨ha, hb, hc⟩ := ih ⟨f.text, ((f.frameNumber : ℚ) - 1) / 1,
        (f.frameNumber : ℚ) / 1⟩ f.frameNumber hr hf (by simp) hstart
      have hm1 : (m : ℚ) ≤ (f.frameNumber : ℚ) - 1 := by
        have : (m : ℚ) + 1 ≤ (f.frameNumber : ℚ) := by exact_mod_cast hmf
        linarith
      refine ⟨List.pairwise_cons.mpr ⟨?_, ha⟩, ?_, ?_⟩
      · intro e he
        have hse := hc e he
        simp only at hse
        rw [div_one] at hse
        constructor
        · rw [hend]; linarith
        · have : cur.startTime < (m : ℚ) := hend ▸ hlt
          linarith
      · intro e he
        rcases List.mem_cons.mp he with h | h
        · subst h; exact hlt
        · exact hb e h
      · intro e he
        rcases List.mem_cons.mp he with h | h
        · subst h; exact le_refl _
        · have hse := hc e h
          simp only at hse
          rw [div_one] at hse
          have : cur.startTime < (m : ℚ) := hend ▸ hlt
          linarith

/-- Chronological facts about the run-length merge of a strictly
increasing frame sequence. -/
theorem mergeFrameTexts_chrono (frames : List FrameText)
    (h : frames.Pairwise (fun a b => a.frameNumber < b.frameNumber)) :
    (mergeFrameTexts frames 1).Pairwise
      (fun e1 e2 => e1.endTime ≤ e2.startTime ∧
        e1.startTime < e2.startTime) ∧
    ∀ e ∈ mergeFrameTexts frames 1, e.startTime < e.endTime := by
  cases frames with
  | nil => simp [mergeFrameTexts]
  | cons f rest =>
    rcases List.pairwise_cons.mp h with ⟨hf, hr⟩
    have hinv := mergeAux_invariant rest
      ⟨f.text, ((f.frameNumber : ℚ) - 1) / 1, (f.frameNumber : ℚ) / 1⟩
      f.frameNumber hr hf (by simp) (by simp only [div_one]; linarith)
    exact ⟨hinv.1, hinv.2.1⟩

/-- C7.  For each job the emitted subtitle events have pairwise disjoint
half-open time ranges and appear in order of strictly increasing start
time, given per-frame assignments with strictly increasing frame
numbers. -/
theorem subtitle_event_track_invariant :
    ∀ (opts : ComposerOpts) (vW : ℤ) (frames : List TFrame),
      frames.Pairwise (fun a b => a.frameNumber < b.frameNumber) →
      (buildAssEvents opts vW frames).Pairwise
        (fun e1 e2 => e1.endTime ≤ e2.startTime ∧
          e1.startTime < e2.startTime) ∧
      ∀ e ∈ buildAssEvents opts vW frames, e.startTime < e.endTime := by
  intro opts vW frames h
  have hdec : (((frames.map (fun fr =>
      (⟨fr.frameNumber, frameMergedText fr⟩ : FrameText))).map
        (fun pf => (⟨pf.frameNumber, decidedText opts vW pf.text⟩ :
          FrameText)))).Pairwise
      (fun a b => a.frameNumber < b.frameNumber) := by
    rw [List.pairwise_map, List.pairwise_map]
    exact h
  have hch := mergeFrameTexts_chrono _ hdec
  constructor
  · unfold buildAssEvents
    refine List.Pairwise.map _ ?_ (List.Pairwise.filter _ hch.1)
    intro a b hab
    exact hab
  · unfold buildAssEvents
    intro e he
    rcases List.mem_map.mp he with ⟨ev, hev, hmap⟩
    have hev' := hch.2 ev (List.mem_of_mem_filter hev)
    rw [← hmap]
    exact hev'

/-- Witness for C7: two frames with different texts produce two disjoint,
ordered events. -/
theorem subtitle_event_track_invariant_witness :
    (buildAssEvents defaultComposerOpts 1280
        [⟨1, [⟨"hi"⟩]⟩, ⟨2, [⟨"yo"⟩]⟩]).Pairwise
      (fun e1 e2 => e1.endTime ≤ e2.startTime ∧
        e1.startTime < e2.startTime) ∧
    ∀ e ∈ buildAssEvents defaultComposerOpts 1280
        [⟨1, [⟨"hi"⟩]⟩, ⟨2, [⟨"yo"⟩]⟩], e.startTime < e.endTime := by
  exact subtitle_event_track_invariant defaultComposerOpts 1280
    [⟨1, [⟨"hi"⟩]⟩, ⟨2, [⟨"yo"⟩]⟩]
    (by simp)

/-- Concrete evaluation of the ASS composer on a 100-pixel-wide video and
the phrase `"abcd efgh"`, which still overflows after the two-half wrap:
the emitted event keeps the base font size 44. -/
theorem buildAssEvents_overflow_example :
    buildAssEvents defaultComposerOpts 100 [⟨1, [⟨"abcd efgh"⟩]⟩] =
      [⟨"abcd\\Nefgh", 0, 1, 44⟩] := by
  have hmerged : frameMergedText ⟨1, [⟨"abcd efgh"⟩]⟩ = "abcd efgh" := by
    decide
  have hdec : decidedText defaultComposerOpts 100 "abcd efgh" =
      "abcd\nefgh" := by
    simp only [decidedText, defaultComposerOpts]
    rw [if_neg (by decide : ¬ ("abcd efgh" : String) = "")]
    rw [if_pos ?hc]
    case hc =>
      refine ⟨trivial, ?_⟩
      rw [show hasCJKComposer "abcd efgh" = false from by decide]
      simp only [Bool.false_eq_true, if_false]
      rw [show ("abcd efgh" : String).length = 9 from by decide]
      norm_num
    rw [show hasCJKComposer "abcd efgh" = false from by decide]
    simp only [Bool.false_eq_true, if_false]
    decide
  simp only [buildAssEvents, List.map_cons, List.map_nil, hmerged, hdec]
  simp only [mergeFrameTexts, mergeAux]
  rw [List.filter_cons_of_pos (by decide), List.filter_nil]
  simp only [List.map_cons, List.map_nil]
  refine List.cons_eq_cons.mpr ⟨?_, rfl⟩
  have hesc : escAss "abcd\nefgh" = "abcd\\Nefgh" := by decide
  rw [AssEvent.mk.injEq]
  refine ⟨hesc, by norm_num, by norm_num, rfl⟩

/-- C5 counterexample.  The phrase `"abcd efgh"` on a 100-pixel-wide video
still exceeds the available width 70 after the two-half wrap (longest
line 4 characters, estimated width `4 * 0.62 * 44 = 109.12`), so the
claim prescribes the fitted size `max(12, floor(70 / (4 * 0.62))) = 28`;
the ASS composer nevertheless emits the event with the base font size 44:
no shrinking happens in this path and the emitted font size differs from
the claimed fitted size. -/
theorem text_layout_font_shrinking_counterexample :
    buildAssEvents defaultComposerOpts 100 [⟨1, [⟨"abcd efgh"⟩]⟩] =
      [⟨"abcd\\Nefgh", 0, 1, 44⟩] ∧
    ((70 : ℚ) < 4 * (62 / 100) * 44) ∧
    specClaimFittedFontSize 70 4 (62 / 100) 12 = 28 ∧
    ¬ (∀ e ∈ buildAssEvents defaultComposerOpts 100 [⟨1, [⟨"abcd efgh"⟩]⟩],
        e.fontSize = specClaimFittedFontSize 70 4 (62 / 100) 12) := by
  have hfit : specClaimFittedFontSize 70 4 (62 / 100) 12 = 28 := by
    simp only [specClaimFittedFontSize]
    norm_num
  refine ⟨buildAssEvents_overflow_example, by norm_num, hfit, ?_⟩
  intro h
  have := h ⟨"abcd\\Nefgh", 0, 1, 44⟩
    (by rw [buildAssEvents_overflow_example]; exact List.mem_singleton.mpr rfl)
  rw [hfit] at this
  simp only at this
  exact absurd this (by decide)

/-- C5 amended.  The ASS subtitle composer never shrinks the font: every
emitted event carries the base font size, even when the wrapped text still
exceeds the available width.  The proportional shrink the claim describes
(`max(floor, floor(maxWidth / (longest * factor)))`, floor 12, followed
by a re-wrap at the shrunken size) is implemented only in the drawtext
overlay path, in `layoutForText` of videoComposer.ts. -/
theorem text_layout_font_shrinking_amended :
    (∀ (opts : ComposerOpts) (vW : ℤ) (frames : List TFrame),
      ∀ e ∈ buildAssEvents opts vW frames, e.fontSize = opts.baseFontSize) ∧
    (∀ (boxPadding : ℤ) (cjkF latinF : ℚ) (t : LayoutBox),
      ((max 10 (t.width - boxPadding * 2) : ℤ) : ℚ) <
        ((((if (wrapTextForBox cjkF latinF t.translatedText t.width
              t.fontSize) = "" then [""]
            else splitNl (wrapTextForBox cjkF latinF t.translatedText
              t.width t.fontSize)).map
                (fun l => (l.length : ℤ))).foldr max 1 : ℤ) : ℚ) *
          (if hasCJKComposer t.translatedText then cjkF else latinF) *
          (t.fontSize : ℚ) →
      (layoutForText boxPadding cjkF latinF t).fitted =
        specClaimFittedFontSize (max 10 (t.width - boxPadding * 2))
          (((if (wrapTextForBox cjkF latinF t.translatedText t.width
              t.fontSize) = "" then [""]
            else splitNl (wrapTextForBox cjkF latinF t.translatedText
              t.width t.fontSize)).map
                (fun l => (l.length : ℤ))).foldr max 1)
          (if hasCJKComposer t.translatedText then cjkF else latinF) 12 ∧
      (layoutForText boxPadding cjkF latinF t).wrapped =
        wrapTextForBox cjkF latinF t.translatedText t.width
          ((layoutForText boxPadding cjkF latinF t).fitted)) := by
  constructor
  · intro opts vW frames e he
    unfold buildAssEvents at he
    rcases List.mem_map.mp he with ⟨ev, _, hmap⟩
    rw [← hmap]
  · intro boxPadding cjkF latinF t hover
    simp only [layoutForText, specClaimFittedFontSize]
    rw [if_pos hover]
    exact ⟨rfl, rfl⟩

/-- Evaluation of the drawtext wrap on the witness phrase. -/
theorem wrapTextForBox_example :
    wrapTextForBox (9 / 10) (62 / 100) "abcd efgh" 100 44 = "abcd\nefgh" := by
  simp only [wrapTextForBox]
  rw [if_neg (by decide : ¬ ("abcd efgh" : String) = "")]
  rw [show hasCJKComposer "abcd efgh" = false from by decide]
  simp only [Bool.false_eq_true, if_false]
  norm_num
  decide

/-- Witness for the amended C5: on the 100-pixel example every emitted
event carries font size 44, and the drawtext layout engine shrinks the
witness box from font size 44 to `max(12, floor(88 / (4 * 0.62))) = 35`
and re-wraps. -/
theorem text_layout_font_shrinking_amended_witness :
    (∀ e ∈ buildAssEvents defaultComposerOpts 100 [⟨1, [⟨"abcd efgh"⟩]⟩],
      e.fontSize = 44) ∧
    (layoutForText 6 (9 / 10) (62 / 100) ⟨"abcd efgh", 100, 20, 44⟩).fitted =
      35 := by
  constructor
  · intro e he
    exact text_layout_font_shrinking_amended.1 defaultComposerOpts 100
      [⟨1, [⟨"abcd efgh"⟩]⟩] e he
  · have hover : ((max 10 ((100 : ℤ) - 6 * 2) : ℤ) : ℚ) <
        ((((if (wrapTextForBox (9 / 10) (62 / 100) "abcd efgh" 100 44) = ""
            then [""]
            else splitNl (wrapTextForBox (9 / 10) (62 / 100) "abcd efgh"
              100 44)).map (fun l => (l.length : ℤ))).foldr max 1 : ℤ) : ℚ) *
          (if hasCJKComposer "abcd efgh" then (9 / 10 : ℚ) else 62 / 100) *
          ((44 : ℤ) : ℚ) := by
      rw [wrapTextForBox_example]
      rw [show hasCJKComposer "abcd efgh" = false from by decide]
      rw [show (if ("abcd\nefgh" : String) = "" then [""]
          else splitNl "abcd\nefgh") = ["abcd", "efgh"] from by decide]
      rw [show (List.foldr max 1 (List.map (fun l : String =>
          (l.length : ℤ)) ["abcd", "efgh"])) = 4 from by decide]
      norm_num
    have h := (text_layout_font_shrinking_amended.2 6 (9 / 10) (62 / 100)
      ⟨"abcd efgh", 100, 20, 44⟩ hover).1
    rw [h]
    rw [show (wrapTextForBox (9 / 10) (62 / 100)
        (LayoutBox.mk "abcd efgh" 100 20 44).translatedText
        (LayoutBox.mk "abcd efgh" 100 20 44).width
        (LayoutBox.mk "abcd efgh" 100 20 44).fontSize) = "abcd\nefgh" from
      wrapTextForBox_example]
    rw [show hasCJKComposer
        (LayoutBox.mk "abcd efgh" 100 20 44).translatedText = false from
      by decide]
    rw [show (if ("abcd\nefgh" : String) = "" then [""]
        else splitNl "abcd\nefgh") = ["abcd", "efgh"] from by decide]
    rw [show (List.foldr max 1 (List.map (fun l : String =>
        (l.length : ℤ)) ["abcd", "efgh"])) = 4 from by decide]
    simp only [specClaimFittedFontSize]
    norm_num

theorem getJob_updateEntry (id : String) (f : Job → Job)
    (st : List (String × Job)) :
    getJob (updateEntry id f st) id = (getJob st id).map f := by
  induction st with
  | nil => simp [getJob, updateEntry]
  | cons e es ih =>
    simp only [updateEntry, List.map_cons] at ih ⊢
    by_cases h : e.1 = id
    · rw [if_pos h]
      simp only [getJob]
      rw [List.find?_cons_of_pos _ (by simp [h]),
        List.find?_cons_of_pos _ (by simp [h])]
      simp
    · rw [if_neg h]
      simp only [getJob]
      rw [List.find?_cons_of_neg _ (by simp [h]),
        List.find?_cons_of_neg _ (by simp [h])]
      exact ih

theorem updateEntry_eq_self (id : String) (f : Job → Job)
    (st : List (String × Job))
    (h : ∀ e ∈ st, e.1 = id → f e.2 = e.2) :
    updateEntry id f st = st := by
  induction st with
  | nil => simp [updateEntry]
  | cons e es ih =>
    simp only [updateEntry, List.map_cons]
    have htl : updateEntry id f es = es :=
      ih (fun e' he' => h e' (List.mem_cons_of_mem e he'))
    simp only [updateEntry] at htl
    rw [htl]
    by_cases hid : e.1 = id
    · rw [if_pos hid, h e (List.mem_cons_self e es) hid]
    · rw [if_neg hid]

theorem mem_updateEntry {id : String} {f : Job → Job}
    {st : List (String × Job)} {e' : String × Job}
    (h : e' ∈ updateEntry id f st) :
    ∃ e ∈ st, e' = if e.1 = id then (e.1, f e.2) else e := by
  rcases List.mem_map.mp h with ⟨e, he, hmap⟩
  exact ⟨e, he, hmap.symm⟩

/-- C3.  The claimed terminal-state protection does not hold in the code:
no operation of jobManager.ts checks the current status before writing.
Starting from a processing job, `setJobFailed` leaves it in the terminal
state `failed`; yet a subsequent `setJobCompleted` on the same id is not
a no-op — it overwrites the status to `completed` — and both
`setJobProcessing` and `updateJob` with a status field revert the job to
a non-terminal state. -/
theorem job_state_machine_terminal_overwrite :
    (getJob (setJobFailed 5
        [("a", ⟨"a", .processing, "French", none, none, none, 10, none,
          none, 1, 2⟩)] "a" "boom") "a").map Job.status =
      some JobStatus.failed ∧
    JobStatus.failed.isTerminal = true ∧
    (getJob (setJobCompleted 7 (setJobFailed 5
        [("a", ⟨"a", .processing, "French", none, none, none, 10, none,
          none, 1, 2⟩)] "a" "boom") "a" "out.mp4" none (some "s"))
        "a").map Job.status = some JobStatus.completed ∧
    setJobCompleted 7 (setJobFailed 5
        [("a", ⟨"a", .processing, "French", none, none, none, 10, none,
          none, 1, 2⟩)] "a" "boom") "a" "out.mp4" none (some "s") ≠
      setJobFailed 5
        [("a", ⟨"a", .processing, "French", none, none, none, 10, none,
          none, 1, 2⟩)] "a" "boom" ∧
    (getJob (setJobProcessing 9 (setJobFailed 5
        [("a", ⟨"a", .processing, "French", none, none, none, 10, none,
          none, 1, 2⟩)] "a" "boom") "a") "a").map Job.status =
      some JobStatus.processing ∧
    JobStatus.processing.isTerminal = false ∧
    (getJob (jmUpdateJob 9 (setJobFailed 5
        [("a", ⟨"a", .processing, "French", none, none, none, 10, none,
          none, 1, 2⟩)] "a" "boom") "a"
        { emptyPatch with status := some JobStatus.queued })
        "a").map Job.status = some JobStatus.queued := by
  refine ⟨by decide, by decide, by decide, by decide, by decide,
    by decide, by decide⟩

/-- C9 evidence.  `MemoryDatabase.updateJob` merges the partial fields and
is a no-op on an unknown id, but it does NOT refresh `updatedAt` (it runs
a bare `Object.assign(job, updates)`), while the Postgres and SQLite
providers of the same interface run
`Object.assign(job, updates, { updatedAt: Date.now() })` and do refresh
it.  Concretely: updating progress of a job stored with `updatedAt = 100`
leaves `updatedAt = 100` in the memory provider and sets it to the clock
value in the SQL-style providers. -/
theorem job_update_updatedAt_not_refreshed :
    (getJob (memUpdateJob
        [("j1", ⟨"j1", .processing, "French", none, none, none, 10, none,
          none, 50, 100⟩)] "j1"
        { emptyPatch with progress := some 50 }) "j1").map Job.progress =
      some 50 ∧
    (getJob (memUpdateJob
        [("j1", ⟨"j1", .processing, "French", none, none, none, 10, none,
          none, 50, 100⟩)] "j1"
        { emptyPatch with progress := some 50 }) "j1").map Job.updatedAt =
      some 100 ∧
    (getJob (sqlStyleUpdateJob 999
        [("j1", ⟨"j1", .processing, "French", none, none, none, 10, none,
          none, 50, 100⟩)] "j1"
        { emptyPatch with progress := some 50 }) "j1").map Job.updatedAt =
      some 999 ∧
    memUpdateJob
        [("j1", ⟨"j1", .processing, "French", none, none, none, 10, none,
          none, 50, 100⟩)] "unknown"
        { emptyPatch with progress := some 50 } =
      [("j1", ⟨"j1", .processing, "French", none, none, none, 10, none,
        none, 50, 100⟩)] := by
  refine ⟨by decide, by decide, by decide, by decide⟩

/-- The JavaScript whitespace class and the CJK class are disjoint. -/
theorem isJsWs_not_cjk (c : Char) (h : isJsWs c = true) :
    isCJKNormChar c = false := by
  rw [Bool.eq_false_iff]
  intro hC
  simp only [isCJKNormChar, Bool.or_eq_true, Bool.and_eq_true,
    decide_eq_true_eq] at hC
  simp only [isJsWs, Bool.or_eq_true, Bool.and_eq_true,
    decide_eq_true_eq, or_assoc] at h
  rcases hC with ⟨hC1, hC2⟩ | ⟨hC1, hC2⟩ <;>
    rcases h with h | h | h | h | h | h | h | h | h | h | h | h | h | h | h
  all_goals try omega
  all_goals (subst h; revert hC1; revert hC2; decide)

theorem hasCJKGap_cons {c : Char} {t : List Char} (h : hasCJKGap (c :: t)) :
    hasCJKGap t ∨ (isCJKNormChar c = true ∧ startsWithWsCJK t) := by
  obtain ⟨pre, ws, post, c₁, c₂, heq, h1, h2, hne, hws⟩ := h
  cases pre with
  | nil =>
    simp only [List.nil_append, List.cons.injEq] at heq
    right
    refine ⟨heq.1 ▸ h1, ws, post, c₂, heq.2, hne, hws, h2⟩
  | cons p pre' =>
    simp only [List.cons_append, List.cons.injEq] at heq
    left
    exact ⟨pre', ws, post, c₁, c₂, heq.2, h1, h2, hne, hws⟩

theorem startsWithWsCJK_cons {c : Char} {t : List Char}
    (h : startsWithWsCJK (c :: t)) :
    isJsWs c = true ∧ (startsWithWsCJK t ∨ headIsCJK t = true) := by
  obtain ⟨ws, rest, k, heq, hne, hws, hk⟩ := h
  cases ws with
  | nil => exact absurd rfl hne
  | cons w ws' =>
    simp only [List.cons_append, List.cons.injEq] at heq
    refine ⟨heq.1 ▸ hws w (List.mem_cons_self w ws'), ?_⟩
    cases ws' with
    | nil =>
      right
      rw [heq.2]
      simpa [headIsCJK] using hk
    | cons w' ws'' =>
      left
      exact ⟨w' :: ws'', rest, k, heq.2, by simp, fun x hx =>
        hws x (List.mem_cons_of_mem w hx), hk⟩

theorem no_gap_of_no_cjk {l : List Char}
    (h : ∀ c ∈ l, isCJKNormChar c = false) : ¬ hasCJKGap l := by
  rintro ⟨pre, ws, post, c₁, c₂, heq, h1, _, _, _⟩
  have : c₁ ∈ l := by
    rw [heq]
    exact List.mem_append_right pre (List.mem_cons_self c₁ _)
  rw [h c₁ this] at h1
  exact absurd h1 (by decide)

theorem no_wscjk_of_no_cjk {l : List Char}
    (h : ∀ c ∈ l, isCJKNormChar c = false) : ¬ startsWithWsCJK l := by
  rintro ⟨ws, rest, k, heq, _, _, hk⟩
  have : k ∈ l := by
    rw [heq]
    exact List.mem_append_right ws (List.mem_cons_self k _)
  rw [h k this] at hk
  exact absurd hk (by decide)

theorem gap_append_ws {p t : List Char} (hp : ∀ w ∈ p, isJsWs w = true)
    (h : hasCJKGap (p ++ t)) : hasCJKGap t := by
  induction p with
  | nil => simpa using h
  | cons w p' ih =>
    rw [List.cons_append] at h
    rcases hasCJKGap_cons h with h' | ⟨hc, _⟩
    · exact ih (fun x hx => hp x (List.mem_cons_of_mem w hx)) h'
    · rw [isJsWs_not_cjk w (hp w (List.mem_cons_self w p'))] at hc
      exact absurd hc (by decide)

theorem wscjk_ws_append {p t : List Char} {c : Char}
    (hp : ∀ w ∈ p, isJsWs w = true) (hcw : isJsWs c = false)
    (hcc : isCJKNormChar c = false) :
    ¬ startsWithWsCJK (p ++ c :: t) := by
  induction p with
  | nil =>
    intro h
    rw [List.nil_append] at h
    rw [(startsWithWsCJK_cons h).1] at hcw
    exact absurd hcw (by decide)
  | cons w p' ih =>
    intro h
    rw [List.cons_append] at h
    rcases (startsWithWsCJK_cons h).2 with h' | h'
    · exact ih (fun x hx => hp x (List.mem_cons_of_mem w hx)) h'
    · cases p' with
      | nil =>
        simp only [List.nil_append, headIsCJK] at h'
        rw [hcc] at h'
        exact absurd h' (by decide)
      | cons w' p'' =>
        simp only [List.cons_append, headIsCJK] at h'
        rw [isJsWs_not_cjk w' (hp w' (List.mem_cons_of_mem w
          (List.mem_cons_self w' p'')))] at h'
        exact absurd h' (by decide)

theorem normCJKAux_some_no_wscjk (l : List Char) :
    ∀ ws0 : List Char, (∀ w ∈ ws0, isJsWs w = true) →
    ¬ startsWithWsCJK (normCJKAux (some ws0) l) := by
  induction l with
  | nil =>
    intro ws0 hws0
    simp only [normCJKAux]
    exact no_wscjk_of_no_cjk (fun c hc =>
      isJsWs_not_cjk c (hws0 c (List.mem_reverse.mp hc)))
  | cons c rest ih =>
    intro ws0 hws0
    simp only [normCJKAux]
    by_cases h1 : isJsWs c = true
    · rw [if_pos h1]
      refine ih (c :: ws0) ?_
      intro w hw
      rcases List.mem_cons.mp hw with hw | hw
      · rw [hw]; exact h1
      · exact hws0 w hw
    · rw [if_neg h1]
      have h1' : isJsWs c = false := by
        revert h1; cases isJsWs c <;> simp
      by_cases h2 : isCJKNormChar c = true
      · rw [if_pos h2]
        intro h
        rw [(startsWithWsCJK_cons h).1] at h1'
        exact absurd h1' (by decide)
      · rw [if_neg h2]
        have h2' : isCJKNormChar c = false := by
          revert h2; cases isCJKNormChar c <;> simp
        exact wscjk_ws_append (fun w hw =>
          hws0 w (List.mem_reverse.mp hw)) h1' h2'

theorem normCJKAux_no_gap (l : List Char) :
    ∀ st : Option (List Char),
    (∀ ws, st = some ws → ∀ w ∈ ws, isJsWs w = true) →
    ¬ hasCJKGap (normCJKAux st l) := by
  induction l with
  | nil =>
    intro st hst
    cases st with
    | none =>
      simp only [normCJKAux]
      exact no_gap_of_no_cjk (fun c hc => absurd hc (List.not_mem_nil c))
    | some ws0 =>
      simp only [normCJKAux]
      exact no_gap_of_no_cjk (fun c hc =>
        isJsWs_not_cjk c (hst ws0 rfl c (List.mem_reverse.mp hc)))
  | cons c rest ih =>
    intro st hst
    cases st with
    | none =>
      simp only [normCJKAux]
      by_cases h2 : isCJKNormChar c = true
      · rw [if_pos h2]
        intro hg
        rcases hasCJKGap_cons hg with hg' | ⟨_, hsw⟩
        · exact ih (some []) (fun ws hws => by
            injection hws with h
            rw [← h]
            intro w hw
            exact absurd hw (List.not_mem_nil w)) hg'
        · exact normCJKAux_some_no_wscjk rest []
            (fun w hw => absurd hw (List.not_mem_nil w)) hsw
      · rw [if_neg h2]
        intro hg
        rcases hasCJKGap_cons hg with hg' | ⟨hc, _⟩
        · exact ih none (fun ws hws => by cases hws) hg'
        · exact absurd hc h2
    | some ws0 =>
      have hws0 : ∀ w ∈ ws0, isJsWs w = true := hst ws0 rfl
      simp only [normCJKAux]
      by_cases h1 : isJsWs c = true
      · rw [if_pos h1]
        refine ih (some (c :: ws0)) ?_
        intro ws hws
        injection hws with h
        rw [← h]
        intro w hw
        rcases List.mem_cons.mp hw with hw | hw
        · rw [hw]; exact h1
        · exact hws0 w hw
      · rw [if_neg h1]
        by_cases h2 : isCJKNormChar c = true
        · rw [if_pos h2]
          intro hg
          rcases hasCJKGap_cons hg with hg' | ⟨_, hsw⟩
          · exact ih (some []) (fun ws hws => by
              injection hws with h
              rw [← h]
              intro w hw
              exact absurd hw (List.not_mem_nil w)) hg'
          · exact normCJKAux_some_no_wscjk rest []
              (fun w hw => absurd hw (List.not_mem_nil w)) hsw
        · rw [if_neg h2]
          intro hg
          have hg2 := gap_append_ws (p := ws0.reverse)
            (fun w hw => hws0 w (List.mem_reverse.mp hw)) hg
          rcases hasCJKGap_cons hg2 with hg' | ⟨hc, _⟩
          · exact ih none (fun ws hws => by cases hws) hg'
          · exact absurd hc h2

/-- C10.  CJK spacing normalisation: unless the flag is the string `"0"`,
the translation applied to a phrase (the map entry, or the original text
as fallback) carries no whitespace run standing between two CJK
characters; with the flag set to `"0"` the looked-up value passes through
untouched; and a value without any CJK character is never changed by the
normalisation. -/
theorem implicit_cjk_spacing_normalization :
    (∀ (flag : String) (tmap : List (String × String)) (s : String),
      flag ≠ "0" →
      ¬ hasCJKGap (applyTranslation flag tmap s).data) ∧
    (∀ (tmap : List (String × String)) (s : String),
      applyTranslation "0" tmap s = lookupOrOriginal tmap s) ∧
    (∀ (flag : String) (tmap : List (String × String)) (s : String),
      (∀ c ∈ (lookupOrOriginal tmap s).data, isCJKNormChar c = false) →
      applyTranslation flag tmap s = lookupOrOriginal tmap s) := by
  refine ⟨?_, ?_, ?_⟩
  · intro flag tmap s hflag
    simp only [applyTranslation, if_neg hflag, normalizeCJKSpacing]
    by_cases hany : (lookupOrOriginal tmap s).data.any isCJKNormChar = true
    · rw [if_pos hany]
      exact normCJKAux_no_gap (lookupOrOriginal tmap s).data none
        (fun ws hws => by cases hws)
    · rw [if_neg hany]
      apply no_gap_of_no_cjk
      intro c hc
      by_cases h : isCJKNormChar c = true
      · exact absurd (List.any_eq_true.mpr ⟨c, hc, h⟩) hany
      · revert h; cases isCJKNormChar c <;> simp
  · intro tmap s
    simp [applyTranslation]
  · intro flag tmap s hnone
    simp only [applyTranslation]
    by_cases hf : flag = "0"
    · rw [if_pos hf]
    · rw [if_neg hf]
      simp only [normalizeCJKSpacing]
      rw [if_neg ?hno]
      case hno =>
        intro hany
        rcases List.any_eq_true.mp hany with ⟨c, hc, h⟩
        rw [hnone c hc] at h
        exact absurd h (by decide)

/-- Witness for C10: with the flag `"1"` the translated phrase
`"你 好"` loses the space between the two CJK characters, and the
pass-through branches hold on `"hello"`. -/
theorem implicit_cjk_spacing_normalization_witness :
    ¬ hasCJKGap (applyTranslation "1" [("hi", "你 好")] "hi").data ∧
    applyTranslation "0" [] "hello" = lookupOrOriginal [] "hello" ∧
    applyTranslation "1" [] "hello" = lookupOrOriginal [] "hello" ∧
    applyTranslation "1" [("hi", "你 好")] "hi" = "你好" := by
  refine ⟨?_, ?_, ?_, ?_⟩
  · exact implicit_cjk_spacing_normalization.1 "1" [("hi", "你 好")] "hi"
      (by decide)
  · exact implicit_cjk_spacing_normalization.2.1 [] "hello"
  · exact implicit_cjk_spacing_normalization.2.2 "1" [] "hello"
      (by decide)
  · decide

theorem mem_perFramePass_ne_empty {cfg : FilterCfg} {fr : GroupedFrame}
    {t : GText} (hmc : 1 ≤ cfg.minChars)
    (ht : t ∈ (perFramePass cfg fr).texts) : t.text ≠ "" := by
  simp only [perFramePass] at ht
  have h1 := List.mem_of_mem_take ht
  have h2 := (mem_sortL _ _ _).mp h1
  have h3 := (List.mem_filter.mp h2).2
  simp only [passesLine, Bool.and_eq_true, decide_eq_true_eq] at h3
  intro hempty
  have hcc : charCountNoWs t.text = 0 := by
    rw [hempty]
    decide
  have := h3.1.1.2
  omega

theorem hasConsecAdj_lift {x y : ℕ} {r : List ℕ}
    (h : hasConsecAdj (y :: r) = true) :
    hasConsecAdj (x :: y :: r) = true := by
  simp only [hasConsecAdj, Bool.or_eq_true]
  right
  exact h

theorem hasConsecAdj_mem : ∀ (m : List ℕ), hasConsecAdj m = true →
    ∃ a, a ∈ m ∧ a + 1 ∈ m := by
  intro m
  induction m with
  | nil => intro h; cases h
  | cons a t ih =>
    intro h
    cases t with
    | nil => simp [hasConsecAdj] at h
    | cons b r =>
      simp only [hasConsecAdj, Bool.or_eq_true, beq_iff_eq] at h
      rcases h with h | h
      · subst h
        exact ⟨a, List.mem_cons_self a _,
          List.mem_cons_of_mem a (List.mem_cons_self (a + 1) r)⟩
      · rcases ih (by simpa [hasConsecAdj] using h) with ⟨x, hx, hx1⟩
        exact ⟨x, List.mem_cons_of_mem a hx, List.mem_cons_of_mem a hx1⟩

theorem hasConsecAdj_of_sorted :
    ∀ (m : List ℕ), m.Pairwise (fun a b => natLt b a = false) →
    ∀ a : ℕ, a ∈ m → a + 1 ∈ m → hasConsecAdj m = true := by
  intro m
  induction m with
  | nil => intro _ a ha _; cases ha
  | cons x xs ih =>
    intro hpw a ha ha1
    rcases List.pairwise_cons.mp hpw with ⟨hx, hxs⟩
    have hxle : ∀ b ∈ xs, x ≤ b := by
      intro b hb
      have := hx b hb
      simp only [natLt, decide_eq_false_iff_not, not_lt] at this
      exact this
    have ha1xs : a + 1 ∈ xs := by
      rcases List.mem_cons.mp ha1 with h | h
      · exfalso
        rcases List.mem_cons.mp ha with h2 | h2
        · omega
        · have := hxle a h2
          omega
      · exact h
    cases xs with
    | nil => cases ha1xs
    | cons y r =>
      have hyle : ∀ b ∈ r, y ≤ b := by
        intro b hb
        have := (List.pairwise_cons.mp hxs).1 b hb
        simp only [natLt, decide_eq_false_iff_not, not_lt] at this
        exact this
      by_cases hy : y = x + 1
      · simp only [hasConsecAdj, Bool.or_eq_true, beq_iff_eq]
        left
        exact hy
      · apply hasConsecAdj_lift
        rcases List.mem_cons.mp ha with hax | hax
        · rcases List.mem_cons.mp ha1xs with h3 | h3
          · exact absurd (by omega : y = x + 1) hy
          · have hy1 : y ≤ a + 1 := hyle _ h3
            have hy2 : x ≤ y := hxle y (List.mem_cons_self y r)
            have hya : y = a := by omega
            exact ih hxs a (by rw [← hya]; exact List.mem_cons_self y r)
              ha1xs
        · exact ih hxs a hax ha1xs

theorem keepText_iff (prelim : List GroupedFrame) (txt : String) :
    keepText prelim txt = true ↔
      ∃ a, a ∈ occList prelim txt ∧ a + 1 ∈ occList prelim txt := by
  have htr : ∀ a b c : ℕ, natLt b a = false → natLt c b = false →
      natLt c a = false := by
    intro a b c h1 h2
    simp only [natLt, decide_eq_false_iff_not, not_lt] at *
    omega
  have hasym : ∀ a b : ℕ, natLt a b = true → natLt b a = false := by
    intro a b h
    simp only [natLt, decide_eq_true_eq, decide_eq_false_iff_not,
      not_lt] at *
    omega
  constructor
  · intro h
    rcases hasConsecAdj_mem _ h with ⟨a, ha, ha1⟩
    exact ⟨a, (mem_sortL _ _ _).mp ha, (mem_sortL _ _ _).mp ha1⟩
  · rintro ⟨a, ha, ha1⟩
    exact hasConsecAdj_of_sorted _ (sorted_sortL natLt htr hasym _) a
      ((mem_sortL _ _ _).mpr ha) ((mem_sortL _ _ _).mpr ha1)

theorem occ_iff_survived {cfg : FilterCfg} {frames : List GroupedFrame}
    {txt : String} {a : ℕ} (hne : txt ≠ "") :
    a ∈ occList (frames.map (perFramePass cfg)) txt ↔
      a ∈ survivedFrameNumbers cfg frames txt := by
  constructor
  · intro h
    rcases List.mem_flatMap.mp h with ⟨f, hf, hmem⟩
    rcases List.mem_map.mp hmem with ⟨t, htf, hfn⟩
    rcases List.mem_filter.mp htf with ⟨ht, hpred⟩
    simp only [Bool.and_eq_true, decide_eq_true_eq] at hpred
    refine List.mem_map.mpr ⟨f, List.mem_filter.mpr ⟨hf, ?_⟩, hfn⟩
    exact List.any_eq_true.mpr ⟨t, ht, by simp [hpred.2]⟩
  · intro h
    rcases List.mem_map.mp h with ⟨f, hf, hfn⟩
    rcases List.mem_filter.mp hf with ⟨hfp, hany⟩
    rcases List.any_eq_true.mp hany with ⟨t, ht, htxt⟩
    simp only [decide_eq_true_eq] at htxt
    refine List.mem_flatMap.mpr ⟨f, hfp, ?_⟩
    refine List.mem_map.mpr ⟨t, List.mem_filter.mpr ⟨ht, ?_⟩, hfn⟩
    simp only [Bool.and_eq_true, decide_eq_true_eq]
    exact ⟨by rw [htxt]; exact hne, htxt⟩

/-- Evaluation of the per-frame pass on the single-line example frame used
by the persistence tests: the line passes every per-frame criterion. -/
theorem perFramePass_example (n : ℕ) :
    perFramePass defaultFilterCfg
      ⟨n, [⟨"hello there", 10, 500, 300, 30, 24⟩]⟩ =
      ⟨n, [⟨"hello there", 10, 500, 300, 30, 24⟩]⟩ := by
  have hH : estFrameHeight ⟨n, [⟨"hello there", 10, 500, 300, 30, 24⟩]⟩ =
      540 := by
    simp only [estFrameHeight, List.foldr]
    decide
  have hrs : regionStart defaultFilterCfg 540 = 270 := by
    simp only [regionStart, defaultFilterCfg]
    norm_num
  have hre : regionEnd defaultFilterCfg 540 = 540 := by
    simp only [regionEnd, defaultFilterCfg]
    norm_num
  have hpass : passesLine defaultFilterCfg 270 540
      ⟨"hello there", 10, 500, 300, 30, 24⟩ = true := by
    simp only [passesLine, Bool.and_eq_true, decide_eq_true_eq]
    refine ⟨⟨⟨⟨?_, ?_⟩, ?_⟩, ?_⟩, ?_⟩
    · norm_num
    · norm_num
    · decide
    · decide
    · rw [if_neg (by decide : ¬ ((300 : ℤ) = 0))]
      simp only [defaultFilterCfg]
      norm_num
  simp only [perFramePass, hH, hrs, hre]
  rw [List.filter_cons_of_pos hpass, List.filter_nil]
  simp [sortL, insBy, defaultFilterCfg]

/-- C1.  Temporal persistence filtering: with persistence required, a line
text is retained globally if and only if it survived the per-frame pass
somewhere and the list of frame numbers in which it survived contains two
numerically consecutive values; in particular, on the example line, a text
surviving only in frame 3 is dropped, in frames 3 and 4 is retained, and
in frames 3 and 5 is dropped. -/
theorem temporal_persistence_filtering :
    (∀ (cfg : FilterCfg) (frames : List GroupedFrame) (txt : String),
      cfg.requirePersistence = true → 1 ≤ cfg.minChars →
      ((∃ f ∈ filterSubtitleLike cfg frames, ∃ t ∈ f.texts, t.text = txt) ↔
        ((∃ f ∈ frames.map (perFramePass cfg), ∃ t ∈ f.texts, t.text = txt)
          ∧ ∃ a : ℕ, a ∈ survivedFrameNumbers cfg frames txt ∧
            a + 1 ∈ survivedFrameNumbers cfg frames txt))) ∧
    filterSubtitleLike defaultFilterCfg
      [⟨3, [⟨"hello there", 10, 500, 300, 30, 24⟩]⟩] = [⟨3, []⟩] ∧
    filterSubtitleLike defaultFilterCfg
      [⟨3, [⟨"hello there", 10, 500, 300, 30, 24⟩]⟩,
       ⟨4, [⟨"hello there", 10, 500, 300, 30, 24⟩]⟩] =
      [⟨3, [⟨"hello there", 10, 500, 300, 30, 24⟩]⟩,
       ⟨4, [⟨"hello there", 10, 500, 300, 30, 24⟩]⟩] ∧
    filterSubtitleLike defaultFilterCfg
      [⟨3, [⟨"hello there", 10, 500, 300, 30, 24⟩]⟩,
       ⟨5, [⟨"hello there", 10, 500, 300, 30, 24⟩]⟩] =
      [⟨3, []⟩, ⟨5, []⟩] := by
  refine ⟨?_, ?_, ?_, ?_⟩
  · intro cfg frames txt hpers hmc
    have hfin : filterSubtitleLike cfg frames =
        (frames.map (perFramePass cfg)).map (fun f =>
          ⟨f.frameNumber, f.texts.filter (fun t =>
            keepText (frames.map (perFramePass cfg)) t.text)⟩) := by
      simp only [filterSubtitleLike]
      rw [if_neg (by rw [hpers]; decide)]
    have hne_of : ∀ f0 ∈ frames.map (perFramePass cfg), ∀ t ∈ f0.texts,
        t.text ≠ "" := by
      intro f0 hf0 t ht
      rcases List.mem_map.mp hf0 with ⟨fr0, _, hfr0⟩
      exact mem_perFramePass_ne_empty hmc (hfr0 ▸ ht)
    constructor
    · rintro ⟨f, hf, t, ht, htxt⟩
      rw [hfin] at hf
      rcases List.mem_map.mp hf with ⟨f0, hf0, hmapf⟩
      rw [← hmapf] at ht
      rcases List.mem_filter.mp ht with ⟨ht0, hkeep⟩
      have hne : txt ≠ "" := htxt ▸ hne_of f0 hf0 t ht0
      have hk : keepText (frames.map (perFramePass cfg)) txt = true := by
        rw [← htxt]
        exact hkeep
      rcases (keepText_iff _ _).mp hk with ⟨a, ha, ha1⟩
      exact ⟨⟨f0, hf0, t, ht0, htxt⟩,
        a, (occ_iff_survived hne).mp ha, (occ_iff_survived hne).mp ha1⟩
    · rintro ⟨⟨f0, hf0, t, ht0, htxt⟩, a, ha, ha1⟩
      have hne : txt ≠ "" := htxt ▸ hne_of f0 hf0 t ht0
      have hk : keepText (frames.map (perFramePass cfg)) txt = true :=
        (keepText_iff _ _).mpr ⟨a, (occ_iff_survived hne).mpr ha,
          (occ_iff_survived hne).mpr ha1⟩
      refine ⟨⟨f0.frameNumber, f0.texts.filter (fun u =>
        keepText (frames.map (perFramePass cfg)) u.text)⟩, ?_, t, ?_, htxt⟩
      · rw [hfin]
        exact List.mem_map.mpr ⟨f0, hf0, rfl⟩
      · exact List.mem_filter.mpr ⟨ht0, by rw [htxt]; exact hk⟩
  · simp only [filterSubtitleLike, List.map_cons, List.map_nil,
      perFramePass_example]
    rw [if_neg (by decide)]
    decide
  · simp only [filterSubtitleLike, List.map_cons, List.map_nil,
      perFramePass_example]
    rw [if_neg (by decide)]
    decide
  · simp only [filterSubtitleLike, List.map_cons, List.map_nil,
      perFramePass_example]
    rw [if_neg (by decide)]
    decide

/-- Witness for C1 at the concrete two-frame retained example: the text
is retained globally and the consecutive pair 3, 4 is in its survival
list. -/
theorem temporal_persistence_filtering_witness :
    ∃ f ∈ filterSubtitleLike defaultFilterCfg
      [⟨3, [⟨"hello there", 10, 500, 300, 30, 24⟩]⟩,
       ⟨4, [⟨"hello there", 10, 500, 300, 30, 24⟩]⟩],
      ∃ t ∈ f.texts, t.text = "hello there" := by
  refine (temporal_persistence_filtering.1 defaultFilterCfg
    [⟨3, [⟨"hello there", 10, 500, 300, 30, 24⟩]⟩,
     ⟨4, [⟨"hello there", 10, 500, 300, 30, 24⟩]⟩] "hello there"
    (by decide) (by decide)).mpr ?_
  constructor
  · simp only [List.map_cons, List.map_nil, perFramePass_example]
    refine ⟨⟨3, [⟨"hello there", 10, 500, 300, 30, 24⟩]⟩, ?_, ?_⟩
    · exact List.mem_cons_self _ _
    · exact ⟨⟨"hello there", 10, 500, 300, 30, 24⟩,
        List.mem_cons_self _ _, rfl⟩
  · refine ⟨3, ?_, ?_⟩ <;>
    · simp only [survivedFrameNumbers, List.map_cons, List.map_nil,
        perFramePass_example]
      decide

/-- Clustering the single HELLO detection yields one line with the
estimated font size `round(30 * 0.8) = 24`. -/
theorem groupTextsIntoLines_hello (n : ℕ) :
    groupTextsIntoLines ⟨n, [⟨"HELLO", 10, 500, 100, 30, none⟩]⟩ =
      ⟨n, [⟨"HELLO", 10, 500, 100, 30, 24⟩]⟩ := by
  have hb : buildLines [⟨"HELLO", 10, 500, 100, 30, none⟩] =
      [⟨[⟨"HELLO", 10, 500, 100, 30, none⟩], ⟨500, 30⟩⟩] := by decide
  have hfs : boxFontSize ⟨"HELLO", 10, 500, 100, 30, none⟩ = 24 := by
    simp only [boxFontSize, jsRound]
    norm_num
  simp only [groupTextsIntoLines, hb, List.map_cons, List.map_nil,
    finalizeLine, sortL, insBy, hfs]
  exact congrArg (GroupedFrame.mk n) (by decide)

/-- Under the default filter configuration the HELLO line fails the
minimum-character and minimum-word thresholds, so the per-frame pass
drops it. -/
theorem perFramePass_hello_default (n : ℕ) :
    perFramePass defaultFilterCfg ⟨n, [⟨"HELLO", 10, 500, 100, 30, 24⟩]⟩ =
      ⟨n, []⟩ := by
  have hfail : ∀ rs re : ℚ, passesLine defaultFilterCfg rs re
      ⟨"HELLO", 10, 500, 100, 30, 24⟩ = false := by
    intro rs re
    simp only [passesLine]
    rw [show (decide (defaultFilterCfg.minChars ≤ charCountNoWs "HELLO"))
      = false from by decide]
    simp
  simp only [perFramePass, List.filter_cons, hfail, List.filter_nil]
  simp [sortL]

/-- With the character threshold lowered to 5 and the word threshold to 1
(the other defaults unchanged), the HELLO line passes the per-frame
pass. -/
theorem perFramePass_hello_amended (n : ℕ) :
    perFramePass ⟨.bottom, 1 / 2, 5, 1, 3, 2, true⟩
      ⟨n, [⟨"HELLO", 10, 500, 100, 30, 24⟩]⟩ =
      ⟨n, [⟨"HELLO", 10, 500, 100, 30, 24⟩]⟩ := by
  have hH : estFrameHeight ⟨n, [⟨"HELLO", 10, 500, 100, 30, 24⟩]⟩ =
      540 := by
    simp only [estFrameHeight, List.foldr]
    decide
  have hrs : regionStart ⟨.bottom, 1 / 2, 5, 1, 3, 2, true⟩ 540 = 270 := by
    simp only [regionStart]
    norm_num
  have hre : regionEnd ⟨.bottom, 1 / 2, 5, 1, 3, 2, true⟩ 540 = 540 := by
    simp only [regionEnd]
    norm_num
  have hpass : passesLine ⟨.bottom, 1 / 2, 5, 1, 3, 2, true⟩ 270 540
      ⟨"HELLO", 10, 500, 100, 30, 24⟩ = true := by
    simp only [passesLine, Bool.and_eq_true, decide_eq_true_eq]
    refine ⟨⟨⟨⟨?_, ?_⟩, ?_⟩, ?_⟩, ?_⟩
    · norm_num
    · norm_num
    · decide
    · decide
    · rw [if_neg (by decide : ¬ ((100 : ℤ) = 0))]
      norm_num
  simp only [perFramePass, hH, hrs, hre]
  rw [List.filter_cons_of_pos hpass, List.filter_nil]
  simp [sortL, insBy]

/-- C6 counterexample.  The end-to-end scenario of the claim produces NO
subtitle events under the default bottom-region filter configuration: the
text `"HELLO"` has only 5 non-whitespace characters and 1 word, below the
default thresholds of 6 characters and 2 words, so the per-frame pass
drops it in both frames and the pipeline emits an empty event list
instead of one `BONJOUR` event. -/
theorem end_to_end_scenario_counterexample :
    pipelineEvents defaultFilterCfg defaultComposerOpts 1280 "1"
      [("HELLO", "BONJOUR")]
      [⟨1, [⟨"HELLO", 10, 500, 100, 30, none⟩]⟩,
       ⟨2, [⟨"HELLO", 10, 500, 100, 30, none⟩]⟩] = [] ∧
    charCountNoWs "HELLO" = 5 ∧ wordCount "HELLO" = 1 ∧
    defaultFilterCfg.minChars = 6 ∧ defaultFilterCfg.minWords = 2 := by
  refine ⟨?_, by decide, by decide, by decide, by decide⟩
  simp only [pipelineEvents, List.map_cons, List.map_nil,
    groupTextsIntoLines_hello]
  simp only [filterSubtitleLike, List.map_cons, List.map_nil,
    perFramePass_hello_default]
  rw [if_neg (by decide)]
  decide

/-- C6 amended.  With the filter thresholds lowered to what the HELLO
line actually satisfies (at least 5 characters and 1 word; every other
default unchanged), the two identical frames produce exactly one event
with text `"BONJOUR"` spanning 0.0 s to 2.0 s (at the base font size
44). -/
theorem end_to_end_scenario_amended :
    pipelineEvents ⟨.bottom, 1 / 2, 5, 1, 3, 2, true⟩ defaultComposerOpts
      1280 "1" [("HELLO", "BONJOUR")]
      [⟨1, [⟨"HELLO", 10, 500, 100, 30, none⟩]⟩,
       ⟨2, [⟨"HELLO", 10, 500, 100, 30, none⟩]⟩] =
      [⟨"BONJOUR", 0, 2, 44⟩] := by
  have hmid : (filterSubtitleLike ⟨.bottom, 1 / 2, 5, 1, 3, 2, true⟩
      ([⟨1, [⟨"HELLO", 10, 500, 100, 30, none⟩]⟩,
        ⟨2, [⟨"HELLO", 10, 500, 100, 30, none⟩]⟩].map
          groupTextsIntoLines)).map
        (translationStep "1" [("HELLO", "BONJOUR")]) =
      [⟨1, [⟨"BONJOUR"⟩]⟩, ⟨2, [⟨"BONJOUR"⟩]⟩] := by
    simp only [List.map_cons, List.map_nil, groupTextsIntoLines_hello]
    simp only [filterSubtitleLike, List.map_cons, List.map_nil,
      perFramePass_hello_amended]
    rw [if_neg (by decide)]
    decide
  simp only [pipelineEvents]
  rw [hmid]
  have hdec : decidedText defaultComposerOpts 1280 "BONJOUR" =
      "BONJOUR" := by
    simp only [decidedText, defaultComposerOpts]
    rw [if_neg (by decide : ¬ ("BONJOUR" : String) = "")]
    rw [if_neg ?hin]
    case hin =>
      rintro ⟨-, hlt⟩
      rw [show hasCJKComposer "BONJOUR" = false from by decide] at hlt
      simp only [Bool.false_eq_true, if_false] at hlt
      rw [show ("BONJOUR" : String).length = 7 from by decide] at hlt
      norm_num at hlt
  have hm1 : frameMergedText ⟨1, [⟨"BONJOUR"⟩]⟩ = "BONJOUR" := by decide
  have hm2 : frameMergedText ⟨2, [⟨"BONJOUR"⟩]⟩ = "BONJOUR" := by decide
  simp only [buildAssEvents, List.map_cons, List.map_nil, hm1, hm2, hdec]
  simp only [mergeFrameTexts, mergeAux, eq_self_iff_true, if_true]
  rw [List.filter_cons_of_pos (by decide), List.filter_nil]
  simp only [List.map_cons, List.map_nil]
  refine List.cons_eq_cons.mpr ⟨?_, rfl⟩
  rw [AssEvent.mk.injEq]
  refine ⟨by decide, by norm_num, by norm_num, rfl⟩

theorem half_le_div_iff (i m : ℤ) (hi : 0 ≤ i) :
    ((1 : ℚ) / 2 ≤ (i : ℚ) / (m : ℚ)) ↔ (0 < m ∧ m ≤ 2 * i) := by
  constructor
  · intro h
    rcases lt_trichotomy m 0 with hm | hm | hm
    · exfalso
      have hm' : ((m : ℚ)) < 0 := by exact_mod_cast hm
      rw [le_div_iff_of_neg hm'] at h
      have hi' : (0 : ℚ) ≤ (i : ℚ) := by exact_mod_cast hi
      linarith
    · exfalso
      rw [hm] at h
      norm_num at h
    · refine ⟨hm, ?_⟩
      have hm' : (0 : ℚ) < (m : ℚ) := by exact_mod_cast hm
      rw [le_div_iff₀ hm'] at h
      have h2 : (m : ℚ) ≤ 2 * (i : ℚ) := by linarith
      exact_mod_cast h2
  · rintro ⟨hm, hle⟩
    have hm' : (0 : ℚ) < (m : ℚ) := by exact_mod_cast hm
    rw [le_div_iff₀ hm']
    have h2 : (m : ℚ) ≤ 2 * (i : ℚ) := by exact_mod_cast hle
    linarith

theorem specHalf_iff (a b : OCRBox) :
    ((1 : ℚ) / 2 ≤ specOverlapFrac a b) ↔
      (0 < min a.height b.height ∧
        min a.height b.height ≤ 2 * specInter a b) := by
  have h2 := half_le_div_iff (specInter a b) (min a.height b.height)
    (by simp only [specInter]; omega)
  simpa only [specOverlapFrac] using h2

theorem overlapsY_iff (a : OCRBox) (sp : Span) :
    overlapsY a sp = true ↔
      max 1 (min a.height sp.height) ≤ 2 * spanInter a sp := by
  have hm : (0 : ℤ) < max 1 (min a.height sp.height) :=
    lt_of_lt_of_le one_pos (le_max_left _ _)
  have h2 := half_le_div_iff (spanInter a sp)
    (max 1 (min a.height sp.height)) (by simp only [spanInter]; omega)
  simp only [spanInter] at h2
  simp only [overlapsY, spanInter, decide_eq_true_eq]
  rw [h2]
  exact and_iff_right hm

theorem specOverlapFrac_comm (a b : OCRBox) :
    specOverlapFrac a b = specOverlapFrac b a := by
  simp only [specOverlapFrac, specInter]
  rw [max_comm a.y b.y, min_comm (a.y + a.height) (b.y + b.height),
    min_comm a.height b.height]

theorem lexYXLt_false_y_le {a b : OCRBox} (h : lexYXLt b a = false) :
    a.y ≤ b.y := by
  have h2 : ¬ (lexYXLt b a = true) := by rw [h]; simp
  simp only [lexYXLt, Bool.or_eq_true, Bool.and_eq_true,
    decide_eq_true_eq] at h2
  omega

theorem lexYXLt_htr : ∀ a b c : OCRBox, lexYXLt b a = false →
    lexYXLt c b = false → lexYXLt c a = false := by
  intro a b c h1 h2
  cases h3 : lexYXLt c a with
  | false => rfl
  | true =>
    exfalso
    have h1' : ¬ (lexYXLt b a = true) := by rw [h1]; simp
    have h2' : ¬ (lexYXLt c b = true) := by rw [h2]; simp
    simp only [lexYXLt, Bool.or_eq_true, Bool.and_eq_true,
      decide_eq_true_eq] at h1' h2' h3
    omega

theorem lexYXLt_hasym : ∀ a b : OCRBox, lexYXLt a b = true →
    lexYXLt b a = false := by
  intro a b h
  cases hba : lexYXLt b a with
  | false => rfl
  | true =>
    exfalso
    simp only [lexYXLt, Bool.or_eq_true, Bool.and_eq_true,
      decide_eq_true_eq] at h hba
    omega

theorem join_succeeds (t b1 : OCRBox) (M : ℤ)
    (hy : b1.y ≤ t.y)
    (hM : b1.y + b1.height ≤ M)
    (hfrac : (1 : ℚ) / 2 ≤ specOverlapFrac t b1) :
    overlapsY t ⟨b1.y, M - b1.y⟩ = true := by
  rw [overlapsY_iff]
  have h := (specHalf_iff t b1).mp hfrac
  simp only [specInter] at h
  simp only [spanInter]
  omega

theorem join_gives_edge (t m : OCRBox) (sp : Span)
    (hym : m.y ≤ t.y) (hys : sp.y ≤ m.y)
    (hbot : m.y + m.height = sp.y + sp.height)
    (hov : overlapsY t sp = true) :
    (1 : ℚ) / 2 ≤ specOverlapFrac t m := by
  rw [specHalf_iff]
  rw [overlapsY_iff] at hov
  simp only [spanInter] at hov
  simp only [specInter]
  omega

theorem foldl_single (b1 : OCRBox) :
    ∀ (rest : List OCRBox) (l : Line) (H : ℤ),
      l.span = ⟨b1.y, H⟩ →
      b1.y + b1.height ≤ b1.y + H →
      (∀ u ∈ rest, b1.y ≤ u.y) →
      (∀ u ∈ rest, (1 : ℚ) / 2 ≤ specOverlapFrac u b1) →
      ∃ l' : Line, List.foldl placeBox [l] rest = [l'] ∧
        l'.items = l.items ++ rest := by
  intro rest
  induction rest with
  | nil =>
    intro l H _ _ _ _
    exact ⟨l, rfl, by simp⟩
  | cons u us ih =>
    intro l H hspan hM hy hfrac
    have hov : overlapsY u l.span = true := by
      have h1 := join_succeeds u b1 (b1.y + H)
        (hy u (List.mem_cons_self u us)) hM
        (hfrac u (List.mem_cons_self u us))
      rw [hspan]
      rwa [show b1.y + H - b1.y = H by ring] at h1
    have hspan2 : (addToLine l u).span =
        ⟨b1.y, max (b1.y + H) (u.y + u.height) - b1.y⟩ := by
      simp only [addToLine, hspan]
      rw [min_eq_left (hy u (List.mem_cons_self u us))]
    have hM2 : b1.y + b1.height ≤
        b1.y + (max (b1.y + H) (u.y + u.height) - b1.y) := by
      omega
    obtain ⟨l', hl', hitems⟩ := ih (addToLine l u) _ hspan2 hM2
      (fun v hv => hy v (List.mem_cons_of_mem u hv))
      (fun v hv => hfrac v (List.mem_cons_of_mem u hv))
    refine ⟨l', ?_, ?_⟩
    · simpa only [List.foldl_cons, placeBox, hov, eq_self_iff_true,
        if_true] using hl'
    · rw [hitems]
      simp [addToLine, List.append_assoc]

theorem placeBox_inv (boxes : List OCRBox) (t : OCRBox) (ht : t ∈ boxes) :
    ∀ ls : List Line,
      (∀ l ∈ ls, InvLine boxes l) →
      (∀ l ∈ ls, ∀ b ∈ l.items, b.y ≤ t.y) →
      (∀ l ∈ placeBox ls t, InvLine boxes l) ∧
      (∀ l ∈ placeBox ls t, ∀ b ∈ l.items,
        b = t ∨ ∃ l0 ∈ ls, b ∈ l0.items) := by
  intro ls
  induction ls with
  | nil =>
    intro _ _
    constructor
    · intro l hl
      simp only [placeBox, List.mem_singleton] at hl
      subst hl
      refine ⟨by simp, ?_, ?_, ?_, ?_⟩
      · intro b hb
        simp only [List.mem_singleton] at hb
        subst hb
        exact ht
      · intro b hb
        simp only [List.mem_singleton] at hb
        subst hb
        simp
      · exact ⟨t, by simp, by simp⟩
      · intro p hp q hq
        simp only [List.mem_singleton] at hp hq
        subst hp
        subst hq
        exact Relation.ReflTransGen.refl
    · intro l hl b hb
      simp only [placeBox, List.mem_singleton] at hl
      subst hl
      simp only [List.mem_singleton] at hb
      exact Or.inl hb
  | cons l ls ih =>
    intro hinv hy
    by_cases hov : overlapsY t l.span = true
    · have hplace : placeBox (l :: ls) t = addToLine l t :: ls := by
        simp only [placeBox, hov, eq_self_iff_true, if_true]
      obtain ⟨hne, hsub, hspy, ⟨m, hm, hmbot⟩, hchain⟩ :=
        hinv l (List.mem_cons_self l ls)
      have hedge : boxEdge boxes t m :=
        ⟨ht, hsub m hm, join_gives_edge t m l.span
          (hy l (List.mem_cons_self l ls) m hm) (hspy m hm) hmbot hov⟩
      have hsymE : ∀ x y : OCRBox, boxEdge boxes x y → boxEdge boxes y x := by
        rintro x y ⟨hx, hy', hf⟩
        refine ⟨hy', hx, ?_⟩
        rw [specOverlapFrac_comm y x]
        exact hf
      have hInvNew : InvLine boxes (addToLine l t) := by
        refine ⟨by simp [addToLine], ?_, ?_, ?_, ?_⟩
        · intro b hb
          simp only [addToLine, List.mem_append, List.mem_singleton] at hb
          rcases hb with hb | hb
          · exact hsub b hb
          · subst hb
            exact ht
        · intro b hb
          simp only [addToLine, List.mem_append, List.mem_singleton] at hb ⊢
          rcases hb with hb | hb
          · exact le_trans (min_le_left _ _) (hspy b hb)
          · subst hb
            exact min_le_right _ _
        · rcases le_total (t.y + t.height) (l.span.y + l.span.height) with
            hc | hc
          · refine ⟨m, ?_, ?_⟩
            · simp only [addToLine, List.mem_append]
              exact Or.inl hm
            · simp only [addToLine]
              omega
          · refine ⟨t, ?_, ?_⟩
            · simp only [addToLine, List.mem_append, List.mem_singleton]
              exact Or.inr trivial
            · simp only [addToLine]
              omega
        · intro p hp q hq
          simp only [addToLine, List.mem_append, List.mem_singleton] at hp hq
          rcases hp with hp' | hp' <;> rcases hq with hq' | hq'
          · exact hchain p hp' q hq'
          · rw [hq']
            exact Relation.ReflTransGen.tail (hchain p hp' m hm)
              (hsymE t m hedge)
          · rw [hp']
            exact Relation.ReflTransGen.head hedge (hchain m hm q hq')
          · rw [hp', hq']
            exact Relation.ReflTransGen.refl
      rw [hplace]
      constructor
      · intro l' hl'
        rcases List.mem_cons.mp hl' with hl' | hl'
        · subst hl'
          exact hInvNew
        · exact hinv l' (List.mem_cons_of_mem l hl')
      · intro l' hl' b hb
        rcases List.mem_cons.mp hl' with hl' | hl'
        · subst hl'
          simp only [addToLine, List.mem_append, List.mem_singleton] at hb
          rcases hb with hb | hb
          · exact Or.inr ⟨l, List.mem_cons_self l ls, hb⟩
          · exact Or.inl hb
        · exact Or.inr ⟨l', List.mem_cons_of_mem l hl', hb⟩
    · have hov' : overlapsY t l.span = false := by
        revert hov
        cases overlapsY t l.span <;> simp
      have hplace : placeBox (l :: ls) t = l :: placeBox ls t := by
        simp only [placeBox, hov', Bool.false_eq_true, if_false]
      obtain ⟨ih1, ih2⟩ := ih
        (fun l0 hl0 => hinv l0 (List.mem_cons_of_mem l hl0))
        (fun l0 hl0 => hy l0 (List.mem_cons_of_mem l hl0))
      rw [hplace]
      constructor
      · intro l' hl'
        rcases List.mem_cons.mp hl' with hl' | hl'
        · rw [hl']
          exact hinv l (List.mem_cons_self l ls)
        · exact ih1 l' hl'
      · intro l' hl' b hb
        rcases List.mem_cons.mp hl' with hl' | hl'
        · exact Or.inr ⟨l, List.mem_cons_self l ls, hl' ▸ hb⟩
        · rcases ih2 l' hl' b hb with hb' | ⟨l0, hl0, hb0⟩
          · exact Or.inl hb'
          · exact Or.inr ⟨l0, List.mem_cons_of_mem l hl0, hb0⟩

theorem foldl_inv (boxes : List OCRBox) :
    ∀ (rest : List OCRBox) (ls : List Line),
      (∀ u ∈ rest, u ∈ boxes) →
      (∀ l ∈ ls, InvLine boxes l) →
      (∀ u ∈ rest, ∀ l ∈ ls, ∀ b ∈ l.items, b.y ≤ u.y) →
      rest.Pairwise (fun a b => a.y ≤ b.y) →
      ∀ l ∈ List.foldl placeBox ls rest, InvLine boxes l := by
  intro rest
  induction rest with
  | nil =>
    intro ls _ hinv _ _
    simpa using hinv
  | cons u us ih =>
    intro ls hsub hinv hy hpw
    rcases List.pairwise_cons.mp hpw with ⟨hu, hus⟩
    obtain ⟨h1, h2⟩ := placeBox_inv boxes u (hsub u (List.mem_cons_self u us))
      ls hinv (hy u (List.mem_cons_self u us))
    simp only [List.foldl_cons]
    apply ih (placeBox ls u)
      (fun v hv => hsub v (List.mem_cons_of_mem u hv)) h1 ?_ hus
    intro v hv l hl b hb
    rcases h2 l hl b hb with hb1 | ⟨l0, hl0, hb0⟩
    · rw [hb1]
      exact hu v hv
    · exact le_trans (hy v (List.mem_cons_of_mem u hv) l0 hl0 b hb0)
        (le_refl v.y)

/-- Clustering the two far-apart boxes of the second witness frame: the
spans never overlap, so two separate clusters come out. -/
theorem buildLines_far_example :
    buildLines [⟨"a", 0, 0, 10, 10, none⟩, ⟨"c", 0, 100, 10, 10, none⟩] =
      [⟨[⟨"a", 0, 0, 10, 10, none⟩], ⟨0, 10⟩⟩,
        ⟨[⟨"c", 0, 100, 10, 10, none⟩], ⟨100, 10⟩⟩] := by
  have hov : overlapsY ⟨"c", 0, 100, 10, 10, none⟩ (⟨0, 10⟩ : Span) =
      false := by
    cases h : overlapsY ⟨"c", 0, 100, 10, 10, none⟩ (⟨0, 10⟩ : Span) with
    | false => rfl
    | true =>
      exfalso
      rw [overlapsY_iff] at h
      revert h
      decide
  have h1 : sortL lexYXLt
      [⟨"a", 0, 0, 10, 10, none⟩, ⟨"c", 0, 100, 10, 10, none⟩] =
      [⟨"a", 0, 0, 10, 10, none⟩, ⟨"c", 0, 100, 10, 10, none⟩] := by
    decide
  have h2 : placeBox [] (⟨"a", 0, 0, 10, 10, none⟩ : OCRBox) =
      [⟨[⟨"a", 0, 0, 10, 10, none⟩], ⟨0, 10⟩⟩] := by decide
  simp only [buildLines, h1, List.foldl_cons, List.foldl_nil, h2,
    placeBox, hov, Bool.false_eq_true, if_false]

/-- **C4** Box Clusterer grouping.  Part (a): if the boxes of a frame
pairwise have vertical overlap fraction (intersection height divided by
the shorter of the two heights) at least one half, `groupTextsIntoLines`
produces exactly one line group, and a single cluster containing every
box.  Part (b): two boxes with overlap fraction below one half that are
not connected by any transitive chain of above-threshold overlaps never
share a cluster. -/
theorem box_clusterer_grouping (fr : FrameDet) :
    ((fr.texts ≠ []) →
      (∀ a ∈ fr.texts, ∀ b ∈ fr.texts,
        (1 : ℚ) / 2 ≤ specOverlapFrac a b) →
      (groupTextsIntoLines fr).texts.length = 1 ∧
        ∃ l : Line, buildLines fr.texts = [l] ∧
          ∀ b ∈ fr.texts, b ∈ l.items) ∧
    (∀ p ∈ fr.texts, ∀ q ∈ fr.texts,
      specOverlapFrac p q < 1 / 2 →
      ¬ chainConn fr.texts p q →
      ∀ l ∈ buildLines fr.texts, ¬ (p ∈ l.items ∧ q ∈ l.items)) := by
  constructor
  · intro hne hpair
    obtain ⟨b1, rest, hsort⟩ : ∃ b1 rest,
        sortL lexYXLt fr.texts = b1 :: rest := by
      cases hs : sortL lexYXLt fr.texts with
      | nil =>
        exfalso
        have hperm := sortL_perm lexYXLt fr.texts
        rw [hs] at hperm
        exact hne hperm.symm.eq_nil
      | cons b1 rest => exact ⟨b1, rest, rfl⟩
    have hsorted := sorted_sortL lexYXLt lexYXLt_htr lexYXLt_hasym fr.texts
    rw [hsort] at hsorted
    rcases List.pairwise_cons.mp hsorted with ⟨hb1rest, _⟩
    have hyb : ∀ u ∈ rest, b1.y ≤ u.y := by
      intro u hu
      exact lexYXLt_false_y_le (hb1rest u hu)
    have hmemb1 : b1 ∈ fr.texts := (mem_sortL _ _ _).mp
      (by rw [hsort]; exact List.mem_cons_self b1 rest)
    have hfr : ∀ u ∈ rest, (1 : ℚ) / 2 ≤ specOverlapFrac u b1 := by
      intro u hu
      have hum : u ∈ fr.texts := (mem_sortL _ _ _).mp
        (by rw [hsort]; exact List.mem_cons_of_mem b1 hu)
      exact hpair u hum b1 hmemb1
    obtain ⟨l', hl', hitems⟩ := foldl_single b1 rest
      ⟨[b1], ⟨b1.y, b1.height⟩⟩ b1.height rfl (le_refl _) hyb hfr
    have hbuild : buildLines fr.texts = [l'] := by
      simp only [buildLines, hsort, List.foldl_cons, placeBox]
      exact hl'
    refine ⟨by simp [groupTextsIntoLines, hbuild], l', hbuild, ?_⟩
    intro b hb
    have hbs : b ∈ sortL lexYXLt fr.texts := (mem_sortL _ _ _).mpr hb
    rw [hsort] at hbs
    rw [hitems]
    simpa using hbs
  · intro p hp q hq _ hnc l hl hpq
    have hinv : ∀ l0 ∈ buildLines fr.texts, InvLine fr.texts l0 := by
      intro l0 hl0
      simp only [buildLines] at hl0
      refine foldl_inv fr.texts (sortL lexYXLt fr.texts) []
        (fun u hu => (mem_sortL _ _ _).mp hu)
        (fun l1 hl1 => absurd hl1 (List.not_mem_nil l1))
        (fun u _ l1 hl1 => absurd hl1 (List.not_mem_nil l1))
        ?_ l0 hl0
      exact (sorted_sortL lexYXLt lexYXLt_htr lexYXLt_hasym fr.texts).imp
        (fun hab => lexYXLt_false_y_le hab)
    exact hnc ((hinv l hl).2.2.2.2 p hpq.1 q hpq.2)

theorem box_clusterer_grouping_witness :
    ((groupTextsIntoLines ⟨7, [⟨"a", 0, 0, 10, 10, none⟩,
        ⟨"b", 12, 2, 10, 10, none⟩]⟩).texts.length = 1) ∧
    ¬ ((⟨"a", 0, 0, 10, 10, none⟩ : OCRBox) ∈
          [(⟨"a", 0, 0, 10, 10, none⟩ : OCRBox)] ∧
        (⟨"c", 0, 100, 10, 10, none⟩ : OCRBox) ∈
          [(⟨"a", 0, 0, 10, 10, none⟩ : OCRBox)]) := by
  constructor
  · exact ((box_clusterer_grouping ⟨7, [⟨"a", 0, 0, 10, 10, none⟩,
      ⟨"b", 12, 2, 10, 10, none⟩]⟩).1 (by decide)
      (by
        intro a ha b hb
        rw [specHalf_iff]
        fin_cases ha <;> fin_cases hb <;> decide)).1
  · exact (box_clusterer_grouping ⟨9, [⟨"a", 0, 0, 10, 10, none⟩,
      ⟨"c", 0, 100, 10, 10, none⟩]⟩).2
      ⟨"a", 0, 0, 10, 10, none⟩ (by decide)
      ⟨"c", 0, 100, 10, 10, none⟩ (by decide)
      (by
        have h1 : ¬ ((1 : ℚ) / 2 ≤
            specOverlapFrac ⟨"a", 0, 0, 10, 10, none⟩
              ⟨"c", 0, 100, 10, 10, none⟩) := by
          rw [specHalf_iff]
          decide
        exact lt_of_not_le h1)
      (by
        intro hch
        simp only [chainConn] at hch
        have hP : ∀ x : OCRBox,
            Relation.ReflTransGen
              (boxEdge [⟨"a", 0, 0, 10, 10, none⟩,
                ⟨"c", 0, 100, 10, 10, none⟩]) x
              ⟨"c", 0, 100, 10, 10, none⟩ →
            x = ⟨"c", 0, 100, 10, 10, none⟩ := by
          intro x hx
          induction hx using Relation.ReflTransGen.head_induction_on with
          | refl => rfl
          | head h' h ih =>
            rcases h' with ⟨hmx, _, hfr⟩
            rw [ih] at hfr
            simp only [List.mem_cons, List.not_mem_nil, or_false] at hmx
            rcases hmx with hmx | hmx
            · exfalso
              rw [hmx, specHalf_iff] at hfr
              exact absurd hfr (by decide)
            · exact hmx
        exact absurd (hP ⟨"a", 0, 0, 10, 10, none⟩ hch) (by decide))
      ⟨[⟨"a", 0, 0, 10, 10, none⟩], ⟨0, 10⟩⟩
      (by rw [buildLines_far_example]; decide)
